import Mathlib

/-!
Verification of the jupyterlab-codex server core against its specification.

The Python sources under `jupyterlab_codex/` are shallowly embedded here:

* text is modelled as `List Char` (the repository only manipulates
  newline-delimited UTF-8 text; the byte/str distinction collapses for the
  ASCII data the proofs exercise, and `len` on both sides agrees there);
* the wall clock is threaded explicitly: every operation that calls
  `_now_iso()` or `time.monotonic()` receives the current instant as an
  argument;
* the regular expressions of `sessions._SENSITIVE_PATTERNS` and
  `handlers._NOISY_STDERR_PATTERNS` are implemented as explicit scanners
  with Python `re.sub`/`re.search` semantics (leftmost match, greedy
  quantifiers, ASCII reading of `\w`, `\s` and `\b`);
* `json.loads` of an agent stdout line is an abstract decoder argument —
  only the framing logic around it belongs to the repository;
* the filesystem state of `SessionStore` (one metadata dict and one
  JSON-lines record list per session id) is a pair of association lists,
  and `len(json.dumps(record))` is computed by an explicit serialized-size
  function with CPython's default (`ensure_ascii`, `", "`/`": "`
  separators) escaping rules.
-/

namespace Codex

abbrev Chars := List Char

/-- ASCII reading of Python's `str.strip` / `\s` whitespace set. -/
def pyIsSpaceChar (c : Char) : Bool :=
  c = ' ' || c = '\t' || c = '\n' || c = '\r' || c = '\x0b' || c = '\x0c'

/-- ASCII reading of Python's `\w` word-character class. -/
def isWordChar (c : Char) : Bool :=
  c.isAlpha || c.isDigit || c = '_'

/-- ASCII lower-casing, as applied by `(?i)` and `str.lower()`. -/
def pyLowerChar (c : Char) : Char :=
  if 'A' ≤ c ∧ c ≤ 'Z' then Char.ofNat (c.toNat + 32) else c

/-- `str.strip()` on a character list. -/
def pyStrip (cs : Chars) : Chars :=
  ((cs.dropWhile pyIsSpaceChar).reverse.dropWhile pyIsSpaceChar).reverse

/-- `str.strip()` on a `String`. -/
def pyStripS (s : String) : String :=
  ⟨pyStrip s.data⟩

/-- Substring test: `needle in hay` for Python `str`. -/
def containsSeq (hay needle : Chars) : Bool :=
  match hay with
  | [] => needle.isEmpty
  | _ :: t => needle.isPrefixOf hay || containsSeq t needle

/-- Substring test on `String`s. -/
def containsSubstrS (hay needle : String) : Bool :=
  containsSeq hay.data needle.data

/-- Consume `lit` case-insensitively from the head of `cs`; on success
return the consumed original characters and the remainder. -/
def eatLitCI (lit : Chars) (cs : Chars) : Option (Chars × Chars) :=
  match lit, cs with
  | [], _ => some ([], cs)
  | _ :: _, [] => none
  | l :: ls, c :: cs' =>
    if pyLowerChar c = pyLowerChar l then
      match eatLitCI ls cs' with
      | some (xs, r) => some (c :: xs, r)
      | none => none
    else none

/-- Consume one character out of `set` (case-sensitively). -/
def eatOneIn (set : Chars) (cs : Chars) : Option (Char × Chars) :=
  match cs with
  | [] => none
  | c :: cs' => if set.contains c then some (c, cs') else none

/-- A `\b` at the start of a match whose first character is a word
character: the previous character (if any) must not be a word character. -/
def wordBoundaryOk (prev : Option Char) : Bool :=
  match prev with
  | none => true
  | some c => !(isWordChar c)

/-- A `\b` after a word character: the next character (if any) must not be
a word character. -/
def boundaryAfter (rest : Chars) : Bool :=
  match rest with
  | [] => true
  | c :: _ => !(isWordChar c)

/-- One replacement step found by a pattern at the current position:
the original text consumed, the text that replaces it, and the rest. -/
structure SubMatch where
  matched : Chars
  repl : Chars
  rest : Chars
deriving DecidableEq

/-- Keyword alternative of the first sensitive pattern with an optional
`[-_ ]` separator, e.g. `api[-_ ]?key` (greedy `?`: with the separator
first, then without). -/
def eatKwOptSep (lead tl : Chars) (cs : Chars) : Option (Chars × Chars) :=
  match eatLitCI lead cs with
  | none => none
  | some (a, r1) =>
    match eatOneIn ['-', '_', ' '] r1 with
    | some (s, r2) =>
      match eatLitCI tl r2 with
      | some (b, r3) => some (a ++ s :: b, r3)
      | none =>
        match eatLitCI tl r1 with
        | some (b, r3) => some (a ++ b, r3)
        | none => none
    | none =>
      match eatLitCI tl r1 with
      | some (b, r3) => some (a ++ b, r3)
      | none => none

/-- The keyword alternation of `_SENSITIVE_PATTERNS[0]`:
`api[-_ ]?key|authorization|bearer|access[-_ ]?token|secret|password`,
tried in the source's order. -/
def eatSecretKeyword (cs : Chars) : Option (Chars × Chars) :=
  match eatKwOptSep ("api".data) ("key".data) cs with
  | some r => some r
  | none =>
  match eatLitCI ("authorization".data) cs with
  | some r => some r
  | none =>
  match eatLitCI ("bearer".data) cs with
  | some r => some r
  | none =>
  match eatKwOptSep ("access".data) ("token".data) cs with
  | some r => some r
  | none =>
  match eatLitCI ("secret".data) cs with
  | some r => some r
  | none => eatLitCI ("password".data) cs

/-- Character class `[^\s"';,]+` of the first sensitive pattern. -/
def bodyCharOk (c : Char) : Bool :=
  !(pyIsSpaceChar c || c = '"' || c = '\'' || c = ';' || c = ',')

/-- Matcher for `_SENSITIVE_PATTERNS[0]`:
`(?i)(\b(?:api[-_ ]?key|...|password)\b\s*[:=]\s*)(["']?)[^\s"';,]+` with
replacement `\1\2[REDACTED]\2`. -/
def apiKeyMatchAt (prev : Option Char) (cs : Chars) : Option SubMatch :=
  if !(wordBoundaryOk prev) then none else
  match eatSecretKeyword cs with
  | none => none
  | some (kw, r1) =>
    if !(boundaryAfter r1) then none else
    let sp1 := r1.takeWhile pyIsSpaceChar
    let r2 := r1.dropWhile pyIsSpaceChar
    match eatOneIn [':', '='] r2 with
    | none => none
    | some (sep, r3) =>
      let sp2 := r3.takeWhile pyIsSpaceChar
      let r4 := r3.dropWhile pyIsSpaceChar
      let qr : Chars × Chars :=
        match eatOneIn ['"', '\''] r4 with
        | some (qc, rr) => ([qc], rr)
        | none => ([], r4)
      let body := qr.2.takeWhile bodyCharOk
      let r6 := qr.2.dropWhile bodyCharOk
      if body.isEmpty then none else
      let g1 := kw ++ sp1 ++ sep :: sp2
      some ⟨g1 ++ qr.1 ++ body, g1 ++ qr.1 ++ ("[REDACTED]".data) ++ qr.1, r6⟩

/-- Head alternation of `_SENSITIVE_PATTERNS[1]`:
`gh[pousr]|ghr|ghs|ghl|ghu|github_pat_`, tried in order. -/
def eatGhHead (cs : Chars) : Option (Chars × Chars) :=
  match (match eatLitCI ("gh".data) cs with
         | some (a, r1) =>
           match eatOneIn ['p', 'o', 'u', 's', 'r', 'P', 'O', 'U', 'S', 'R'] r1 with
           | some (c, r2) => some (a ++ [c], r2)
           | none => none
         | none => none) with
  | some r => some r
  | none =>
  -- the `ghr`, `ghs` and `ghu` alternatives are subsumed by `gh[pousr]`
  match eatLitCI ("ghl".data) cs with
  | some r => some r
  | none => eatLitCI ("github_pat_".data) cs

/-- Matcher for `_SENSITIVE_PATTERNS[1]`:
`(?i)\b(?:gh[pousr]|ghr|ghs|ghl|ghu|github_pat_)[A-Za-z0-9]{20,}\b`,
replaced by `[REDACTED_TOKEN]`. -/
def ghTokenMatchAt (prev : Option Char) (cs : Chars) : Option SubMatch :=
  if !(wordBoundaryOk prev) then none else
  match eatGhHead cs with
  | none => none
  | some (hd, r1) =>
    let run := r1.takeWhile Char.isAlphanum
    let r2 := r1.dropWhile Char.isAlphanum
    if run.length < 20 then none else
    if !(boundaryAfter r2) then none else
    some ⟨hd ++ run, "[REDACTED_TOKEN]".data, r2⟩

/-- Head alternation of `_SENSITIVE_PATTERNS[2]`: `sk|pk|xoxb|xoxp`. -/
def eatSkHead (cs : Chars) : Option (Chars × Chars) :=
  match eatLitCI ("sk".data) cs with
  | some r => some r
  | none =>
  match eatLitCI ("pk".data) cs with
  | some r => some r
  | none =>
  match eatLitCI ("xoxb".data) cs with
  | some r => some r
  | none => eatLitCI ("xoxp".data) cs

/-- Matcher for `_SENSITIVE_PATTERNS[2]`:
`(?i)\b(?:sk|pk|xoxb|xoxp)_[A-Za-z0-9]+(?:_[A-Za-z0-9]+)?\b`, replaced by
`[REDACTED_TOKEN]`.  The greedy `+` runs are maximal; the optional group
backtracks to empty only when a `\b` could follow the first run, which
never holds there because the next character is then `_` (a word
character), so the explicit case split below is the regex's behaviour. -/
def skTokenMatchAt (prev : Option Char) (cs : Chars) : Option SubMatch :=
  if !(wordBoundaryOk prev) then none else
  match eatSkHead cs with
  | none => none
  | some (hd, r1) =>
    match eatOneIn ['_'] r1 with
    | none => none
    | some (u, r2) =>
      let run1 := r2.takeWhile Char.isAlphanum
      let r3 := r2.dropWhile Char.isAlphanum
      if run1.isEmpty then none else
      match eatOneIn ['_'] r3 with
      | some (u2, r4) =>
        let run2 := r4.takeWhile Char.isAlphanum
        let r5 := r4.dropWhile Char.isAlphanum
        if run2.isEmpty then none else
        if !(boundaryAfter r5) then none else
        some ⟨hd ++ u :: run1 ++ u2 :: run2, "[REDACTED_TOKEN]".data, r5⟩
      | none =>
        if !(boundaryAfter r3) then none else
        some ⟨hd ++ u :: run1, "[REDACTED_TOKEN]".data, r3⟩

/-- Character class `[A-Za-z0-9_-]` of the JWT pattern. -/
def jwtCharOk (c : Char) : Bool :=
  c.isAlphanum || c = '_' || c = '-'

/-- Greedy backtracking of the JWT pattern's final `[A-Za-z0-9_-]+\b`:
shrink the maximal run from the right until a word boundary holds after
its last kept character.  Returns the kept part and the characters given
back to the unmatched stream. -/
def jwtShrink (revRun : Chars) (next : Option Char) : Option (Chars × Chars) :=
  match revRun with
  | [] => none
  | c :: rs =>
    if isWordChar c ≠ (match next with | none => false | some d => isWordChar d) then
      some ((c :: rs).reverse, [])
    else
      match jwtShrink rs (some c) with
      | some (kept, back) => some (kept, back ++ [c])
      | none => none

/-- Matcher for `_SENSITIVE_PATTERNS[3]` (case-sensitive):
`\beyJ[A-Za-z0-9_-]+\.[A-Za-z0-9_-]+\.[A-Za-z0-9_-]+\b`, replaced by
`[REDACTED_TOKEN]`. -/
def jwtMatchAt (prev : Option Char) (cs : Chars) : Option SubMatch :=
  if !(wordBoundaryOk prev) then none else
  match cs with
  | 'e' :: 'y' :: 'J' :: r0 =>
    let run1 := r0.takeWhile jwtCharOk
    let r1 := r0.dropWhile jwtCharOk
    if run1.isEmpty then none else
    match eatOneIn ['.'] r1 with
    | none => none
    | some (_, r2) =>
      let run2 := r2.takeWhile jwtCharOk
      let r3 := r2.dropWhile jwtCharOk
      if run2.isEmpty then none else
      match eatOneIn ['.'] r3 with
      | none => none
      | some (_, r4) =>
        let run3 := r4.takeWhile jwtCharOk
        let r5 := r4.dropWhile jwtCharOk
        match jwtShrink run3.reverse r5.head? with
        | none => none
        | some (kept, back) =>
          some ⟨'e' :: 'y' :: 'J' :: run1 ++ '.' :: run2 ++ '.' :: kept,
                "[REDACTED_TOKEN]".data, back ++ r5⟩
  | _ => none

/-- One pass of `pattern.sub` driven by a positional matcher, with explicit
fuel (the fuel is structural so that the function evaluates by `decide`;
`scanSub` below supplies sufficient fuel). -/
def scanSubFuel (matchAt : Option Char → Chars → Option SubMatch) :
    Nat → Option Char → Chars → Chars
  | 0, _, _ => []
  | fuel + 1, prev, cs =>
    match matchAt prev cs with
    | some m => m.repl ++ scanSubFuel matchAt fuel m.matched.getLast? m.rest
    | none =>
      match cs with
      | [] => []
      | c :: rest => c :: scanSubFuel matchAt fuel (some c) rest

/-- `pattern.sub(repl, text)` for one sensitive pattern. -/
def scanSub (matchAt : Option Char → Chars → Option SubMatch) (cs : Chars) : Chars :=
  scanSubFuel matchAt (cs.length + 1) none cs

/-- `_sanitize_sensitive_values`: the four patterns applied in the order of
`_SENSITIVE_PATTERNS`. -/
def sanitize_sensitive_values (cs : Chars) : Chars :=
  scanSub jwtMatchAt (scanSub skTokenMatchAt (scanSub ghTokenMatchAt (scanSub apiKeyMatchAt cs)))

/-- `_truncate_text`. -/
def truncate_text (raw : Chars) (maxChars : Nat) : Chars :=
  if raw.isEmpty then raw
  else if maxChars = 0 then []
  else if raw.length ≤ maxChars then raw
  else if maxChars ≤ 3 then raw.take maxChars
  else raw.take (maxChars - 3) ++ ("...".data)

/-- `_sanitize_message`. -/
def sanitize_message (content : Chars) (maxChars : Nat) : Chars :=
  truncate_text (sanitize_sensitive_values content) maxChars

/-- `_sanitize_message` on `String`s. -/
def sanitize_messageS (content : String) (maxChars : Nat) : String :=
  ⟨sanitize_message content.data maxChars⟩

/-! ## JSON serialized sizes

`_enforce_session_limits_locked` compares `len(json.dumps(record))` (plus
the newline) against the byte budget.  `json.dumps` is CPython's with the
default options: `", "` and `": "` separators, `ensure_ascii=True`. -/

/-- Characters contributed by one character inside a JSON string literal. -/
def jsonEscapeLen (c : Char) : Nat :=
  if c = '"' ∨ c = '\\' then 2
  else if c = '\x08' ∨ c = '\t' ∨ c = '\n' ∨ c = '\x0c' ∨ c = '\r' then 2
  else if c.toNat < 0x20 then 6
  else if c.toNat < 0x7f then 1
  else if c.toNat ≤ 0xffff then 6
  else 12

/-- `len(json.dumps(s))` for a string. -/
def jsonStrLen (s : Chars) : Nat :=
  2 + (s.map jsonEscapeLen).sum

/-! ## Message records -/

/-- A sanitized UI preview (`_sanitize_ui_preview`'s non-empty result). -/
structure UiPreview where
  locationLabel : String
  previewText : String
deriving DecidableEq

/-- The sanitized `ui` payload stored on a record (at least one of the two
previews present whenever the payload itself is present). -/
structure UiPayload where
  selectionPreview : Option UiPreview
  cellOutputPreview : Option UiPreview
deriving DecidableEq

/-- The raw `ui` argument passed to `append_message` before sanitizing. -/
structure RawUi where
  selectionPreview : Option UiPreview
  cellOutputPreview : Option UiPreview
deriving DecidableEq

/-- One line of a session's JSON-lines log. -/
structure Record where
  role : String
  content : String
  timestamp : String
  ui : Option UiPayload
deriving DecidableEq

/-- `str.replace("\r\n", "\n").replace("\r", "\n")`. -/
def normalizeNewlines : Chars → Chars
  | [] => []
  | '\r' :: '\n' :: rest => '\n' :: normalizeNewlines rest
  | '\r' :: rest => '\n' :: normalizeNewlines rest
  | c :: rest => c :: normalizeNewlines rest

def default_ui_label_max_chars : Nat := 80
def default_ui_preview_max_chars : Nat := 500
def default_ui_preview_max_items_per_session : Nat := 10

/-- `_sanitize_ui_preview`. -/
def sanitize_ui_preview (raw : Option UiPreview) : Option UiPreview :=
  match raw with
  | none => none
  | some p =>
    let location := sanitize_message (pyStrip p.locationLabel.data) default_ui_label_max_chars
    let preview := sanitize_message (pyStrip (normalizeNewlines p.previewText.data))
        default_ui_preview_max_chars
    if location.isEmpty ∨ preview.isEmpty then none
    else some ⟨⟨location⟩, ⟨preview⟩⟩

/-- `_sanitize_ui_payload`: `none` models the empty dict (no `ui` key). -/
def sanitize_ui_payload (raw : Option RawUi) : Option UiPayload :=
  match raw with
  | none => none
  | some r =>
    let sel := sanitize_ui_preview r.selectionPreview
    let cell := sanitize_ui_preview r.cellOutputPreview
    match sel, cell with
    | none, none => none
    | _, _ => some ⟨sel, cell⟩

/-- Serialized length of one preview dict
`{"locationLabel": .., "previewText": ..}`. -/
def uiPreviewJsonLen (p : UiPreview) : Nat :=
  2 + (jsonStrLen ("locationLabel".data) + 2 + jsonStrLen p.locationLabel.data)
    + 2 + (jsonStrLen ("previewText".data) + 2 + jsonStrLen p.previewText.data)

/-- Serialized length of the `ui` value dict (insertion order:
`selectionPreview` first, then `cellOutputPreview`). -/
def uiPayloadJsonLen (u : UiPayload) : Nat :=
  let fields : List Nat :=
    (match u.selectionPreview with
     | some p => [jsonStrLen ("selectionPreview".data) + 2 + uiPreviewJsonLen p]
     | none => []) ++
    (match u.cellOutputPreview with
     | some p => [jsonStrLen ("cellOutputPreview".data) + 2 + uiPreviewJsonLen p]
     | none => [])
  2 + fields.sum + 2 * (fields.length - 1)

/-- `len(json.dumps(record))`: keys in insertion order
`role`, `content`, `timestamp` and, when present, `ui`. -/
def json_dumps_len (r : Record) : Nat :=
  let fields : List Nat :=
    [jsonStrLen ("role".data) + 2 + jsonStrLen r.role.data,
     jsonStrLen ("content".data) + 2 + jsonStrLen r.content.data,
     jsonStrLen ("timestamp".data) + 2 + jsonStrLen r.timestamp.data] ++
    (match r.ui with
     | some u => [jsonStrLen ("ui".data) + 2 + uiPayloadJsonLen u]
     | none => [])
  2 + fields.sum + 2 * (fields.length - 1)

/-- Bytes one record occupies in the log file (serialized line plus `\n`). -/
def recordLineLen (r : Record) : Nat :=
  json_dumps_len r + 1

/-- Size of the whole log file, also `path.stat().st_size`. -/
def totalByteLen (rs : List Record) : Nat :=
  (rs.map recordLineLen).sum

/-! ## SessionStore state -/

/-- A JSON scalar stored in a metadata dict. -/
inductive JVal where
  | s (v : String)
  | n (v : Nat)
deriving DecidableEq

/-- A JSON object: keys in insertion order, unique for parsed metadata. -/
abbrev MetaDict := List (String × JVal)

def alistGet {α : Type} (l : List (String × α)) (k : String) : Option α :=
  (l.find? (fun p => p.1 == k)).map (fun p => p.2)

def alistSet {α : Type} (l : List (String × α)) (k : String) (v : α) : List (String × α) :=
  if l.any (fun p => p.1 == k) then
    l.map (fun p => if p.1 == k then (k, v) else p)
  else l ++ [(k, v)]

def alistRemove {α : Type} (l : List (String × α)) (k : String) : List (String × α) :=
  l.filter (fun p => !(p.1 == k))

def dictGet (d : MetaDict) (k : String) : Option JVal :=
  alistGet d k

/-- `d[k] = v` (replace in place, else append) — CPython dict semantics. -/
def dictSet (d : MetaDict) (k : String) (v : JVal) : MetaDict :=
  alistSet d k v

/-- `d.update(e)`. -/
def dictUpdate (d e : MetaDict) : MetaDict :=
  e.foldl (fun acc p => dictSet acc p.1 p.2) d

/-- The store's environment-derived configuration (`SessionStore.__init__`;
`retention_days` and `max_session_bytes` admit 0, the other limits are
positive). -/
structure StoreConfig where
  logging_enabled : Bool
  retention_days : Nat
  max_message_chars : Nat
  max_messages_per_session : Nat
  max_session_bytes : Nat
deriving DecidableEq

/-- The defaults from `sessions.py`'s module constants. -/
def defaultConfig : StoreConfig :=
  ⟨true, 30, 12000, 300, 2000000⟩

def session_file_version : Nat := 1

/-- On-disk state of a `SessionStore`: per-session metadata files and
JSON-lines log files.  Retention pruning (deleting whole sessions whose
`updated_at` is older than the retention window) is time-driven and not
exercised by any claim; it is not modelled. -/
structure SessionStore where
  cfg : StoreConfig
  metas : List (String × MetaDict)
  logs : List (String × List Record)
deriving DecidableEq

def emptyStore (cfg : StoreConfig) : SessionStore :=
  ⟨cfg, [], []⟩

/-- Python `records[-n:]` for positive `n`. -/
def takeLast {α : Type} (n : Nat) (xs : List α) : List α :=
  xs.drop (xs.length - n)

/-- `_trim_records_to_byte_budget`'s while loop: drop the oldest record
while the serialized size exceeds the budget. -/
def dropOldestWhileOver (maxBytes : Nat) : List Record → List Record
  | [] => []
  | r :: rs =>
    if totalByteLen (r :: rs) > maxBytes then dropOldestWhileOver maxBytes rs
    else r :: rs

/-- `_trim_records_to_byte_budget`. -/
def trim_records_to_byte_budget (rs : List Record) (maxBytes : Nat) : List Record :=
  if maxBytes = 0 then rs else dropOldestWhileOver maxBytes rs

/-- A `user` record carrying a rich UI preview
(`_trim_user_ui_previews`'s selection condition). -/
def hasUiPreviewRec (r : Record) : Bool :=
  r.role == "user" &&
    (match r.ui with
     | some u => u.selectionPreview.isSome || u.cellOutputPreview.isSome
     | none => false)

/-- Strip the `ui` key from the first `n` preview-carrying user records. -/
def stripFirstUi : Nat → List Record → List Record
  | _, [] => []
  | 0, rs => rs
  | n + 1, r :: rs =>
    if hasUiPreviewRec r then ⟨r.role, r.content, r.timestamp, none⟩ :: stripFirstUi n rs
    else r :: stripFirstUi (n + 1) rs

/-- `_trim_user_ui_previews`. -/
def trim_user_ui_previews (records : List Record) (keep_latest : Nat) : List Record :=
  if keep_latest = 0 then records
  else
    let total := (records.filter hasUiPreviewRec).length
    if total ≤ keep_latest then records
    else stripFirstUi (total - keep_latest) records

/-- `_enforce_session_limits_locked` on one session's records (the model
has no unparseable lines, so `invalid_count = 0`); returns the records the
file holds afterwards — the original list when the `changed` test fails. -/
def enforce_session_limits (cfg : StoreConfig) (recs : List Record)
    (skip_size_limit : Bool) : List Record :=
  let should_check_size :=
    if skip_size_limit then false
    else cfg.max_session_bytes > 0 && totalByteLen recs > cfg.max_session_bytes
  if recs.isEmpty then recs
  else
    let r1 := if cfg.max_messages_per_session > 0
      then takeLast cfg.max_messages_per_session recs else recs
    let r2 := trim_user_ui_previews r1 default_ui_preview_max_items_per_session
    let r3 := if cfg.max_session_bytes > 0
      then trim_records_to_byte_budget r2 cfg.max_session_bytes else r2
    if r3.length ≠ recs.length ∨ should_check_size = true then r3 else recs

/-! ## SessionStore operations -/

def lowerEndsWith (s : String) (suffix : String) : Bool :=
  List.isSuffixOf suffix.data (s.data.map pyLowerChar)

def cutSuffix (s : String) (n : Nat) : Chars :=
  s.data.take (s.data.length - n)

/-- `_derive_paired_paths`. -/
def derive_paired_paths (notebook_path notebook_os_path : String) : String × String :=
  let paired_path : String :=
    if lowerEndsWith notebook_path ".ipynb" then ⟨cutSuffix notebook_path 6 ++ (".py".data)⟩
    else if lowerEndsWith notebook_path ".py" then ⟨cutSuffix notebook_path 3 ++ (".ipynb".data)⟩
    else ""
  let paired_os_path : String :=
    if lowerEndsWith notebook_os_path ".ipynb" then ⟨cutSuffix notebook_os_path 6 ++ (".py".data)⟩
    else if lowerEndsWith notebook_os_path ".py" then ⟨cutSuffix notebook_os_path 3 ++ (".ipynb".data)⟩
    else ""
  (paired_path, paired_os_path)

/-- `SessionStore.ensure_session`. -/
def ensure_session (s : SessionStore) (session_id notebook_path notebook_os_path now : String) :
    SessionStore :=
  if !s.cfg.logging_enabled then s
  else if session_id = "" then s
  else if !((alistGet s.metas session_id).getD []).isEmpty then s
  else
    let pp := derive_paired_paths notebook_path notebook_os_path
    let meta : MetaDict :=
      [("schema_version", .n session_file_version),
       ("session_id", .s session_id),
       ("notebook_path", .s notebook_path),
       ("notebook_os_path", .s notebook_os_path),
       ("paired_path", .s pp.1),
       ("paired_os_path", .s pp.2),
       ("created_at", .s now),
       ("updated_at", .s now),
       ("retention_days", .n s.cfg.retention_days),
       ("max_messages_per_session", .n s.cfg.max_messages_per_session)]
    ⟨s.cfg, alistSet s.metas session_id meta, s.logs⟩

/-- `SessionStore.update_notebook_path`. -/
def update_notebook_path (s : SessionStore)
    (session_id notebook_path notebook_os_path now : String) : SessionStore :=
  if !s.cfg.logging_enabled then s
  else if session_id = "" then s
  else
    let meta0 : MetaDict :=
      match alistGet s.metas session_id with
      | some m =>
        if m.isEmpty then
          [("session_id", .s session_id), ("created_at", .s now),
           ("schema_version", .n session_file_version)]
        else m
      | none =>
        [("session_id", .s session_id), ("created_at", .s now),
         ("schema_version", .n session_file_version)]
    let pp := derive_paired_paths notebook_path notebook_os_path
    let meta1 :=
      dictSet (dictSet (dictSet (dictSet (dictSet (dictSet (dictSet (dictSet (dictSet
        meta0 "session_id" (.s session_id))
        "notebook_path" (.s notebook_path))
        "notebook_os_path" (.s notebook_os_path))
        "paired_path" (.s pp.1))
        "paired_os_path" (.s pp.2))
        "schema_version" (.n session_file_version))
        "updated_at" (.s now))
        "retention_days" (.n s.cfg.retention_days))
        "max_messages_per_session" (.n s.cfg.max_messages_per_session)
    ⟨s.cfg, alistSet s.metas session_id meta1, s.logs⟩

/-- `SessionStore._touch_meta_locked` restricted to readable metadata. -/
def touch_meta_metas (cfg : StoreConfig) (metas : List (String × MetaDict))
    (session_id now : String) : List (String × MetaDict) :=
  match alistGet metas session_id with
  | none => metas
  | some m =>
    alistSet metas session_id
      (dictSet (dictSet (dictSet m "updated_at" (.s now))
        "schema_version" (.n session_file_version))
        "retention_days" (.n cfg.retention_days))

/-- Role normalization performed by `SessionStore.append_message`. -/
def normalize_role (role : String) : String :=
  if role = "system" ∨ role = "user" ∨ role = "assistant" then role else "system"

/-- The record `append_message` writes for its arguments. -/
def mk_record (cfg : StoreConfig) (role content now : String) (ui : Option RawUi) : Record :=
  ⟨normalize_role role, sanitize_messageS content cfg.max_message_chars, now,
   sanitize_ui_payload ui⟩

/-- `SessionStore.append_message` (the throttled global retention sweep it
may trigger is time-driven and not modelled). -/
def append_message (s : SessionStore) (session_id role content : String)
    (ui : Option RawUi) (now : String) : SessionStore :=
  if !s.cfg.logging_enabled then s
  else if session_id = "" then s
  else
    let r := mk_record s.cfg role content now ui
    let log1 := (alistGet s.logs session_id).getD [] ++ [r]
    let metas1 := touch_meta_metas s.cfg s.metas session_id now
    let log2 := enforce_session_limits s.cfg log1 false
    ⟨s.cfg, metas1, alistSet s.logs session_id log2⟩

/-- `SessionStore.load_messages` (every stored line in the model is a
valid record, so no corrupt-line skipping arises). -/
def load_messages (s : SessionStore) (session_id : String) : List Record :=
  if !s.cfg.logging_enabled then []
  else if session_id = "" then []
  else (alistGet s.logs session_id).getD []

/-- `SessionStore.rename_session`; returns the store and the returned id. -/
def rename_session (s : SessionStore) (old_session_id new_session_id now : String) :
    SessionStore × String :=
  let old_id := pyStripS old_session_id
  let new_id := pyStripS new_session_id
  if old_id = "" ∨ new_id = "" ∨ old_id = new_id then
    (s, if new_id ≠ "" then new_id else old_id)
  else if !s.cfg.logging_enabled then (s, new_id)
  else
    let logs1 :=
      match alistGet s.logs old_id with
      | none => s.logs
      | some oldLog =>
        match alistGet s.logs new_id with
        | some newLog => alistRemove (alistSet s.logs new_id (newLog ++ oldLog)) old_id
        | none => alistRemove (alistSet s.logs new_id oldLog) old_id
    let merged0 : MetaDict :=
      match alistGet s.metas new_id with
      | some m => dictUpdate [] m
      | none => []
    let merged1 : MetaDict :=
      match alistGet s.metas old_id with
      | some m => dictUpdate merged0 m
      | none => merged0
    let metas1 :=
      if !merged1.isEmpty then
        let m2 :=
          dictSet (dictSet (dictSet (dictSet (dictSet
            merged1 "session_id" (.s new_id))
            "updated_at" (.s now))
            "schema_version" (.n session_file_version))
            "retention_days" (.n s.cfg.retention_days))
            "max_messages_per_session" (.n s.cfg.max_messages_per_session)
        alistSet s.metas new_id m2
      else s.metas
    let metas2 := alistRemove metas1 old_id
    let logs2 :=
      if (alistGet metas2 new_id).isSome then
        match alistGet logs1 new_id with
        | some recs => alistSet logs1 new_id (enforce_session_limits s.cfg recs true)
        | none => logs1
      else logs1
    (⟨s.cfg, metas2, logs2⟩, new_id)

/-! ## CodexRunner stdout framing (`_read_stdout` in `runner.run`)

The decoded JSON value of a line is abstract: `decode` stands for
`json.loads` restricted to lines that parse, returning `none` on a
`JSONDecodeError`. -/

def max_event_line_bytes : Nat := 1024 * 1024

/-- An event delivered to `on_event` by the stdout pump: a decoded JSON
line or the synthetic `{"type": "raw", "text": line}` event. -/
inductive StdoutEvent (α : Type) where
  | json (v : α)
  | raw (text : Chars)
deriving DecidableEq

/-- Processing of one extracted raw line: strip, skip when empty,
otherwise decode or fall back to the raw event. -/
def line_event {α : Type} (decode : Chars → Option α) (rawLine : Chars) :
    Option (StdoutEvent α) :=
  let line := pyStrip rawLine
  if line.isEmpty then none
  else
    match decode line with
    | some v => some (.json v)
    | none => some (.raw line)

/-- Split a buffer into its complete (`\n`-terminated) lines, newline
removed, and the unterminated remainder. -/
def splitCompleteLines : Chars → List Chars × Chars
  | [] => ([], [])
  | c :: rest =>
    if c = '\n' then
      let p := splitCompleteLines rest
      ([] :: p.1, p.2)
    else
      match splitCompleteLines rest with
      | (l :: ls, rem) => ((c :: l) :: ls, rem)
      | ([], rem) => ([], c :: rem)

/-- One `proc.stdout.read` arriving: extend the buffer, fail fast when an
unterminated line exceeds the hard bound, else deliver the complete
lines' events. -/
def runner_feed {α : Type} (decode : Chars → Option α) (buf chunk : Chars) :
    Except Unit (Chars × List (StdoutEvent α)) :=
  let buf1 := buf ++ chunk
  if buf1.length > max_event_line_bytes ∧ ¬ ('\n' ∈ buf1) then .error ()
  else
    let p := splitCompleteLines buf1
    .ok (p.2, p.1.filterMap (line_event decode))

/-- The stdout pump over a whole sequence of reads (the list's end models
the empty read at process exit, which flushes the remainder). -/
def read_stdout {α : Type} (decode : Chars → Option α) :
    Chars → List Chars → Except Unit (List (StdoutEvent α))
  | buf, [] => .ok (line_event decode buf).toList
  | buf, chunk :: rest =>
    match runner_feed decode buf chunk with
    | .error e => .error e
    | .ok (buf1, evs) =>
      match read_stdout decode buf1 rest with
      | .error e => .error e
      | .ok evs2 => .ok (evs ++ evs2)

/-- `_read_stdout` from an initially empty buffer. -/
def read_stdout_model {α : Type} (decode : Chars → Option α) (chunks : List Chars) :
    Except Unit (List (StdoutEvent α)) :=
  read_stdout decode [] chunks

/-! ## Python call compatibility

CPython raises `TypeError` when a call passes a keyword argument that the
callee's signature does not declare.  The two signatures below are
transcribed from `runner.py`, the call keyword lists from `handlers.py`. -/

/-- Parameters of `CodexRunner.run` (`runner.py`), all usable as
keywords. -/
def codex_runner_run_keyword_params : List String :=
  ["prompt", "on_event", "cwd", "model", "reasoning_effort", "sandbox", "images", "command"]

/-- Keyword arguments `handlers._run` passes to `self._runner.run`. -/
def handlers_run_call_keywords : List String :=
  ["cwd", "model", "reasoning_effort", "sandbox", "command", "images", "resume_session_id"]

/-- Whether the `runner.run` call raises `TypeError` before the process is
spawned. -/
def run_call_type_error : Bool :=
  !(handlers_run_call_keywords.all (fun k => codex_runner_run_keyword_params.contains k))

def run_type_error_message : String :=
  "run() got an unexpected keyword argument 'resume_session_id'"

/-- Parameters of `CodexRunner.list_available_models` (`runner.py`). -/
def list_available_models_keyword_params : List String :=
  ["command"]

/-- Keyword arguments `handlers._send_model_catalog` passes to
`self._runner.list_available_models`. -/
def handlers_list_models_call_keywords : List String :=
  ["command", "force_refresh"]

/-- Whether the catalog call raises `TypeError`. -/
def catalog_call_type_error : Bool :=
  !(handlers_list_models_call_keywords.all
      (fun k => list_available_models_keyword_params.contains k))

/-! ## Model-catalog cache (`CodexRunner.list_available_models`) -/

/-- The runner's catalog cache: the cached entries (opaque id strings
stand for the model dicts) and the monotonic fetch instant in seconds. -/
structure CatalogState where
  cache : List String
  cache_time : Nat
deriving DecidableEq

/-- Result of one `list_available_models` call: the returned list, the
cache afterwards, and whether the subprocess handshake ran. -/
structure CatalogCall where
  result : List String
  state : CatalogState
  used_fetch : Bool
deriving DecidableEq

/-- The cache/TTL logic of `list_available_models` (`now` is
`time.monotonic()`; `fetched` is `_load_available_models`'s outcome,
`none` when it raised). -/
def list_available_models_model (st : CatalogState) (now : Nat)
    (fetched : Option (List String)) : CatalogCall :=
  if st.cache ≠ [] ∧ now - st.cache_time < 600 then ⟨st.cache, st, false⟩
  else
    match fetched with
    | none => ⟨[], st, true⟩
    | some ms => if ms = [] then ⟨[], st, true⟩ else ⟨ms, ⟨ms, now⟩, true⟩

/-- The catalog payloads `_send_model_catalog`'s background task writes.
The `force_refresh` argument is what the handler passes; since
`list_available_models` declares no such parameter, a `TypeError` kills
the task before the runner executes and nothing is written (the flag
cannot reach the cache logic). -/
def send_model_catalog_out (st : CatalogState) (now : Nat)
    (fetched : Option (List String)) (_force_refresh : Bool) : List (List String) :=
  if catalog_call_type_error then []
  else
    let call := list_available_models_model st now fetched
    if call.result = [] then [] else [call.result]

/-! ## Stream-event classification (`handlers.py`) -/

/-- Python's `str.splitlines(keepends=True)` restricted to `\n`
terminators (the only terminator the agent's output uses). -/
def splitlinesKeep : Chars → List Chars
  | [] => []
  | c :: rest =>
    if c = '\n' then ['\n'] :: splitlinesKeep rest
    else
      match splitlinesKeep rest with
      | [] => [[c]]
      | l :: ls => (c :: l) :: ls

/-- Matcher for `_NOISY_STDERR_PATTERNS[0]`:
`\bcodex_core::rollout::list:\s+state db (?:missing|returned stale) rollout path for thread\b`
(case-insensitive). -/
def noisy_match_at (prev : Option Char) (cs : Chars) : Bool :=
  wordBoundaryOk prev &&
    (match eatLitCI ("codex_core::rollout::list:".data) cs with
     | none => false
     | some (_, r1) =>
       if (r1.takeWhile pyIsSpaceChar).isEmpty then false
       else
         let r2 := r1.dropWhile pyIsSpaceChar
         match eatLitCI ("state db ".data) r2 with
         | none => false
         | some (_, r3) =>
           let after : Option Chars :=
             match eatLitCI ("missing".data) r3 with
             | some (_, r4) => some r4
             | none =>
               match eatLitCI ("returned stale".data) r3 with
               | some (_, r4) => some r4
               | none => none
           match after with
           | none => false
           | some r4 =>
             match eatLitCI (" rollout path for thread".data) r4 with
             | some (_, r5) => boundaryAfter r5
             | none => false)

/-- `pattern.search(line)` for the noisy-stderr pattern. -/
def noisy_search : Option Char → Chars → Bool
  | _, [] => false
  | prev, c :: rest => noisy_match_at prev (c :: rest) || noisy_search (some c) rest

/-- `_strip_noisy_stderr_lines`. -/
def strip_noisy_stderr_lines (text : String) : String :=
  if text = "" then ""
  else ⟨((splitlinesKeep text.data).filter (fun l => !(noisy_search none l))).flatten⟩

/-- `_is_missing_auth_stderr`. -/
def is_missing_auth_stderr (text : String) : Bool :=
  let lower := text.data.map pyLowerChar
  if lower.isEmpty then false
  else if containsSeq lower ("missing bearer or basic authentication".data) then true
  else containsSeq lower ("401 unauthorized".data) && containsSeq lower ("api.openai.com".data)

/-- A nested item of an `item.completed` event (`event["item"]`): its
`type` and the `text`/`message` fields when present as strings. -/
structure CodexItemD where
  type_ : String
  text : Option String
  message : Option String
deriving DecidableEq

/-- One decoded agent event as `handlers.py` dispatches on it: the `type`
tag and the fields each branch reads (`none` models an absent or
non-string field). -/
structure CodexEventD where
  type_ : String
  text : Option String
  message : Option String
  delta : Option String
  thread_id : Option String
  item : Option CodexItemD
deriving DecidableEq

/-- `handlers.event_to_text`. -/
def event_to_text (e : CodexEventD) : String :=
  if e.type_ = "thread.started" ∨ e.type_ = "turn.started" ∨ e.type_ = "turn.completed" then ""
  else if e.type_ = "stderr" then
    match e.text with
    | some t => strip_noisy_stderr_lines t
    | none => ""
  else
    let fallbackText : String :=
      match e.text with
      | some t => t
      | none =>
        match e.message with
        | some m => m
        | none =>
          match e.delta with
          | some d => d
          | none => ""
    if e.type_ = "item.completed" then
      match e.item with
      | some it =>
        let itext := it.text.getD ""
        let imsg := it.message.getD ""
        if it.type_ = "agent_message" ∧ itext ≠ "" then itext
        else if it.type_ = "error" ∧
            containsSubstrS imsg "suppress_unstable_features_warning" then ""
        else if it.type_ = "error" ∧ imsg ≠ "" then " " ++ imsg ++ "\n"
        else fallbackText
      | none => fallbackText
    else fallbackText

/-! ## The turn coordinator (`handlers._handle_send` / `_run`) -/

def auth_required_hint : String :=
  "Authentication required: open a terminal and run `codex` (or `codex login`) to sign in, then retry."

def resume_fallback_hint : String :=
  "Resume was unavailable for this turn. This turn was handled in fallback mode."

/-- Messages written back over the websocket, reduced to the fields the
claims speak about. -/
inductive OutMsg where
  | statusRunning
  | statusReady
  | outputMsg (text : String) (role : Option String)
  | eventMsg (e : CodexEventD)
  | doneMsg (exit_code : Option Int) (run_mode : String) (cancelled : Bool)
  | errorMsg (message : String)
deriving DecidableEq

def is_error_msg : OutMsg → Bool
  | .errorMsg _ => true
  | _ => false

/-- One recorded `self._store.append_message(...)` call. -/
structure AppendCall where
  session_id : String
  role : String
  content : String
  ui : Option RawUi
deriving DecidableEq

/-- The mutable state of one `_run` coroutine. -/
structure TurnSt where
  session_id : String
  auth_hint_sent : Bool
  buffer : List String
  store : SessionStore
  active_runs : List (String × String)
  out : List OutMsg
  appends : List AppendCall
deriving DecidableEq

/-- `self._store.append_message(st.session_id, ...)`, with the call
recorded. -/
def st_append (st : TurnSt) (role content : String) (ui : Option RawUi) (now : String) :
    TurnSt :=
  { st with
    store := append_message st.store st.session_id role content ui now,
    appends := st.appends ++ [⟨st.session_id, role, content, ui⟩] }

/-- Outcome of delivering one event to `on_event`: the updated state, or
the `_ResumeFallbackRequested` exception. -/
inductive EvStep where
  | ok (st : TurnSt)
  | fallbackRaise (st : TurnSt)
deriving DecidableEq

/-- `on_event` inside `_run`.  `resume_target` is the invocation's
`current_resume_session_id` (empty string models `None`). -/
def on_event_model (run_id resume_target now : String) (st : TurnSt) (e : CodexEventD) :
    EvStep :=
  if e.type_ = "thread.started" then
    let tid :=
      match e.thread_id with
      | some s => pyStripS s
      | none => ""
    if resume_target ≠ "" ∧ tid ≠ "" ∧ tid ≠ resume_target then .fallbackRaise st
    else if tid ≠ "" ∧ tid ≠ st.session_id then
      let r := rename_session st.store st.session_id tid now
      let runs' :=
        match alistGet st.active_runs run_id with
        | some _ => alistSet st.active_runs run_id r.2
        | none => st.active_runs
      .ok { st with
            session_id := r.2, store := r.1, active_runs := runs',
            out := st.out ++ [.statusRunning] }
    else .ok st
  else if e.type_ = "stderr" ∧ (match e.text with
      | some t => is_missing_auth_stderr t
      | none => false) = true then
    if st.auth_hint_sent then .ok st
    else .ok { st with
               auth_hint_sent := true,
               out := st.out ++ [.outputMsg auth_required_hint (some "system")] }
  else
    let text := event_to_text e
    if text ≠ "" then
      .ok { st with
            buffer := st.buffer ++ [text],
            out := st.out ++ [.outputMsg text none] }
    else if e.type_ = "stderr" then .ok st
    else .ok { st with out := st.out ++ [.eventMsg e] }

/-- The state carried by either outcome of an event delivery. -/
def EvStep.state : EvStep → TurnSt
  | .ok st => st
  | .fallbackRaise st => st

/-- Deliver a list of events, stopping at a raised
`_ResumeFallbackRequested`. -/
def run_events (run_id resume_target now : String) : TurnSt → List CodexEventD → EvStep
  | st, [] => .ok st
  | st, e :: rest =>
    match on_event_model run_id resume_target now st e with
    | .ok st' => run_events run_id resume_target now st' rest
    | .fallbackRaise st' => .fallbackRaise st'

/-- How one supervisor invocation ends after its events were delivered. -/
inductive InvEnd where
  | completes (code : Int)
  | cancelledMid
deriving DecidableEq

/-- Scenario of one supervisor invocation: the events its pumps deliver
(in order) and how it terminates afterwards. -/
structure InvSpec where
  events : List CodexEventD
  ending : InvEnd
deriving DecidableEq

inductive InvResult where
  | done (code : Int) (st : TurnSt)
  | cancelled (st : TurnSt)
  | fallbackRaised (st : TurnSt)
deriving DecidableEq

/-- `await self._runner.run(...)` under a scenario: events first (an event
may raise the fallback exception, aborting the invocation), then the
scenario's termination. -/
def run_invocation (run_id resume_target now : String) (st : TurnSt) (inv : InvSpec) :
    InvResult :=
  match run_events run_id resume_target now st inv.events with
  | .fallbackRaise st' => .fallbackRaised st'
  | .ok st' =>
    match inv.ending with
    | .completes code => .done code st'
    | .cancelledMid => .cancelled st'

/-- A whole turn's scenario: the first invocation, the re-invocation used
when a fallback happens, and whether the watched files changed. -/
structure TurnSpec where
  inv1 : InvSpec
  inv2 : InvSpec
deriving DecidableEq

/-- Result of a turn: the store, the in-flight registry, the websocket
messages and the recorded appends. -/
structure TurnResult where
  store : SessionStore
  active_runs : List (String × String)
  out : List OutMsg
  appends : List AppendCall
deriving DecidableEq

/-- `has_conversation_history` as `_handle_send` computes it from the
prior messages. -/
def has_conversation_history (msgs : List Record) : Bool :=
  msgs.any (fun m => m.role == "user" || m.role == "assistant")

/-- The store after `_handle_send`'s `ensure_session` /
`update_notebook_path` preamble. -/
def turn_prepared_store (s0 : SessionStore) (session_id notebook_path notebook_os_path now : String) :
    SessionStore :=
  let s1 := ensure_session s0 session_id notebook_path notebook_os_path now
  if notebook_path ≠ "" then update_notebook_path s1 session_id notebook_path notebook_os_path now
  else s1

/-- `resume_target_session_id`: empty on a first turn. -/
def turn_resume_target (s : SessionStore) (session_id : String) : String :=
  if has_conversation_history (load_messages s session_id) then session_id else ""

/-- `{"selectionPreview": ui_selection_preview}` or `None`. -/
def user_ui_payload (p : Option UiPreview) : Option RawUi :=
  match p with
  | some pv => some ⟨some pv, none⟩
  | none => none

/-- The `_run` coroutine's state when it starts: run registered, status
`running` emitted, empty buffer. -/
def turn_initial_state (s0 : SessionStore) (runs0 : List (String × String))
    (run_id session_id notebook_path notebook_os_path now : String) : TurnSt :=
  ⟨session_id, false, [],
   turn_prepared_store s0 session_id notebook_path notebook_os_path now,
   alistSet runs0 run_id session_id,
   [.statusRunning], []⟩

/-- The completion path shared by resume and fallback: append the user
message, append the joined assistant buffer when non-empty, emit the done
status and `ready`, pop the registry entry. -/
def turn_finish_done (st : TurnSt) (code : Int) (run_mode : String)
    (run_id content : String) (ui : Option UiPreview) (now : String) : TurnResult :=
  let st1 := st_append st "user" content (user_ui_payload ui) now
  let st2 :=
    if st1.buffer ≠ [] then st_append st1 "assistant" (String.join st1.buffer) none now
    else st1
  ⟨st2.store, alistRemove st2.active_runs run_id,
   st2.out ++ [.doneMsg (some code) run_mode false, .statusReady],
   st2.appends⟩

/-- The `asyncio.CancelledError` path: the user message is appended, the
assistant buffer is not, and the done status carries `cancelled=True` with
no exit code. -/
def turn_finish_cancelled (st : TurnSt) (run_mode : String)
    (run_id content : String) (ui : Option UiPreview) (now : String) : TurnResult :=
  let st1 := st_append st "user" content (user_ui_payload ui) now
  ⟨st1.store, alistRemove st1.active_runs run_id,
   st1.out ++ [.doneMsg none run_mode true, .statusReady],
   st1.appends⟩

/-- The generic `except Exception` path. -/
def turn_finish_error (st : TurnSt) (message : String)
    (run_id content : String) (ui : Option UiPreview) (now : String) : TurnResult :=
  let st1 := st_append st "user" content (user_ui_payload ui) now
  ⟨st1.store, alistRemove st1.active_runs run_id,
   st1.out ++ [.errorMsg message, .statusReady],
   st1.appends⟩

/-- The fallback re-invocation shared by rules 3 and 4: clear the resume
target, notify, emit `running`, rebuild the prompt with history and run
again (a fallback exception from the re-invocation would propagate to the
generic handler). -/
def turn_fallback_reinvoke (st : TurnSt) (run_id content : String)
    (ui : Option UiPreview) (now : String) (inv2 : InvSpec) : TurnResult :=
  let st1 := { st with
               buffer := [],
               out := st.out ++ [.outputMsg resume_fallback_hint (some "system"), .statusRunning] }
  match run_invocation run_id "" now st1 inv2 with
  | .done code2 st2 => turn_finish_done st2 code2 "fallback" run_id content ui now
  | .cancelled st2 => turn_finish_cancelled st2 "fallback" run_id content ui now
  | .fallbackRaised st2 =>
    turn_finish_error st2 "_ResumeFallbackRequested" run_id content ui now

/-- The body of `_run` given that the `runner.run` calls themselves
execute (their events and terminations given by `spec`). -/
def run_turn (s0 : SessionStore) (runs0 : List (String × String))
    (run_id session_id notebook_path notebook_os_path content : String)
    (ui : Option UiPreview) (now : String) (spec : TurnSpec) : TurnResult :=
  let resume_target :=
    turn_resume_target (turn_prepared_store s0 session_id notebook_path notebook_os_path now)
      session_id
  let st0 := turn_initial_state s0 runs0 run_id session_id notebook_path notebook_os_path now
  match run_invocation run_id resume_target now st0 spec.inv1 with
  | .fallbackRaised st1 => turn_fallback_reinvoke st1 run_id content ui now spec.inv2
  | .cancelled st1 => turn_finish_cancelled st1 "resume" run_id content ui now
  | .done code st1 =>
    if code ≠ 0 ∧ resume_target ≠ "" ∧ st1.buffer = [] ∧ st1.auth_hint_sent = false then
      turn_fallback_reinvoke st1 run_id content ui now spec.inv2
    else turn_finish_done st1 code "resume" run_id content ui now

/-- `_run` as CPython executes it: the first `self._runner.run(...)` call
passes `resume_session_id=`, which `CodexRunner.run` does not declare, so
the call raises `TypeError` synchronously and the generic exception
handler finishes the turn. -/
def run_turn_python (s0 : SessionStore) (runs0 : List (String × String))
    (run_id session_id notebook_path notebook_os_path content : String)
    (ui : Option UiPreview) (now : String) (spec : TurnSpec) : TurnResult :=
  if run_call_type_error then
    turn_finish_error
      (turn_initial_state s0 runs0 run_id session_id notebook_path notebook_os_path now)
      run_type_error_message run_id content ui now
  else run_turn s0 runs0 run_id session_id notebook_path notebook_os_path content ui now spec

/-- `CodexWSHandler._handle_cancel`: the websocket replies and, when the
run is found, the session id whose task got `cancel()`. -/
def handle_cancel (active_runs : List (String × String)) (run_id : String) :
    List OutMsg × Option String :=
  match alistGet active_runs run_id with
  | none => ([.errorMsg "Run not found"], none)
  | some sid => ([.statusReady], some sid)

/-! ## Predicates and fixtures used by the claim statements -/

def is_done_msg : OutMsg → Bool
  | .doneMsg _ _ _ => true
  | _ => false

/-- The roles `append_message` may persist. -/
def allowed_role (r : String) : Prop :=
  r = "system" ∨ r = "user" ∨ r = "assistant"

/-- Every record in every stored log has an allowed role. -/
def roles_ok (s : SessionStore) : Prop :=
  ∀ e ∈ s.logs, ∀ r ∈ e.2, allowed_role r.role

/-- A sequence of `append_message` calls (`(role, content, timestamp)`
per message, no UI payload) against a fresh store. -/
def append_run (cfg : StoreConfig) (session_id : String)
    (items : List (String × String × String)) : SessionStore :=
  items.foldl
    (fun s it => append_message s session_id it.1 it.2.1 none it.2.2)
    (emptyStore cfg)

/-- The record `append_run`'s items produce. -/
def run_item_record (cfg : StoreConfig) (it : String × String × String) : Record :=
  mk_record cfg it.1 it.2.1 it.2.2 none

/-- A matcher never returns a rest at least as long as its input. -/
def MatchShrink (matchAt : Option Char → Chars → Option SubMatch) : Prop :=
  ∀ prev cs m, matchAt prev cs = some m → m.rest.length < cs.length

/-- What the first sensitive pattern leaves of `api_key: "<secret>"`. -/
def redacted_api_key_line : String :=
  "api_key: \"[REDACTED]\"\""

/-- A store holding prior conversation for session `s1`, so that a turn
on `s1` is a resume attempt. -/
def resume_fixture_store : SessionStore :=
  ⟨defaultConfig,
   [("s1", [("session_id", .s "s1")])],
   [("s1", [⟨"user", "hello", "t0", none⟩, ⟨"assistant", "hi", "t0", none⟩])]⟩

/-- Scenario for a resume mismatch: the first event is `thread.started`
with a thread id that differs from the resume target `s1`. -/
def mismatch_spec : TurnSpec :=
  ⟨⟨[⟨"thread.started", none, none, none, some "s2", none⟩], .completes 0⟩,
   ⟨[], .completes 0⟩⟩

/-- Scenario for a silent resume failure: no events, no assistant text,
no auth hint, nonzero exit code. -/
def silent_failure_spec : TurnSpec :=
  ⟨⟨[], .completes 3⟩, ⟨[], .completes 0⟩⟩

/-- A store whose session `s` already has a (trivial) metadata file, so
the turn preamble leaves the store unchanged. -/
def cancel_fixture_store : SessionStore :=
  ⟨defaultConfig, [("s", [("session_id", .s "s")])], []⟩

/-- Scenario cancelled after one assistant-message event. -/
def cancel_spec : TurnSpec :=
  ⟨⟨[⟨"item.completed", none, none, none, none, some ⟨"agent_message", some "hi", none⟩⟩],
    .cancelledMid⟩,
   ⟨[], .completes 0⟩⟩

/-- Store for the rename counterexample: sessions `A` and `B` both have
metadata (conflicting `notebook_path`) and a one-message log. -/
def rename_fixture_store : SessionStore :=
  ⟨defaultConfig,
   [("A", [("session_id", .s "A"), ("notebook_path", .s "a.ipynb")]),
    ("B", [("session_id", .s "B"), ("notebook_path", .s "b.ipynb")])],
   [("A", [⟨"user", "from-a", "t1", none⟩]),
    ("B", [⟨"user", "from-b", "t2", none⟩])]⟩

/-- Tiny configuration for the byte-budget counterexample: two messages
allowed, one byte of log budget. -/
def tiny_config : StoreConfig :=
  ⟨true, 30, 100, 2, 1⟩

def tiny_items : List (String × String × String) :=
  [("user", "a", "t1"), ("user", "b", "t2"), ("user", "c", "t3")]

instance {ε α : Type} [DecidableEq ε] [DecidableEq α] : DecidableEq (Except ε α) :=
  fun a b =>
    match a, b with
    | .ok x, .ok y => if h : x = y then .isTrue (by rw [h]) else .isFalse (by simp [h])
    | .error x, .error y => if h : x = y then .isTrue (by rw [h]) else .isFalse (by simp [h])
    | .ok _, .error _ => .isFalse (by simp)
    | .error _, .ok _ => .isFalse (by simp)

/-! # Theorems

Shared lemmas about the dictionary/association-list model come first,
then each claim's theorems. -/

theorem alistGet_cons {α : Type} (p : String × α) (t : List (String × α)) (k : String) :
    alistGet (p :: t) k = if p.1 = k then some p.2 else alistGet t k := by
  unfold alistGet
  rw [List.find?]
  cases h : (p.1 == k) <;> simp_all

theorem alistGet_eq_none_of_not_mem_keys {α : Type} {l : List (String × α)} {k : String}
    (h : k ∉ l.map Prod.fst) : alistGet l k = none := by
  induction l with
  | nil => rfl
  | cons p t ih =>
    rw [alistGet_cons]
    simp only [List.map_cons, List.mem_cons] at h
    push_neg at h
    have h1 : ¬ p.1 = k := fun hc => h.1 hc.symm
    simp [h1, ih h.2]

theorem alistGet_mem {α : Type} {l : List (String × α)} {k : String} {v : α}
    (h : alistGet l k = some v) : ∃ p ∈ l, p.2 = v := by
  unfold alistGet at h
  cases hf : l.find? (fun p => p.1 == k) with
  | none => rw [hf] at h; simp at h
  | some p =>
    rw [hf] at h
    simp at h
    exact ⟨p, List.mem_of_find?_eq_some hf, h⟩

theorem alistGet_map_set_self {α : Type} (l : List (String × α)) (k : String) (v : α) :
    alistGet (l.map (fun p => if p.1 == k then (k, v) else p)) k =
      if l.any (fun p => p.1 == k) then some v else none := by
  induction l with
  | nil => simp [alistGet]
  | cons p t ih =>
    rw [List.map_cons]
    by_cases hpk : p.1 = k
    · simp [alistGet_cons, hpk]
    · simp only [List.any_cons]
      rw [if_neg (by simpa using hpk), alistGet_cons]
      rw [if_neg hpk, ih]
      have hb : (p.1 == k) = false := by simpa using hpk
      have h2 : (p.1 == k || t.any fun p => p.1 == k) = (t.any fun p => p.1 == k) := by
        rw [hb]; exact Bool.false_or _
      simp only [h2]

theorem alistGet_map_set_ne {α : Type} (l : List (String × α)) (k k' : String) (v : α)
    (h : k' ≠ k) :
    alistGet (l.map (fun p => if p.1 == k then (k, v) else p)) k' = alistGet l k' := by
  induction l with
  | nil => simp [alistGet]
  | cons p t ih =>
    rw [List.map_cons]
    by_cases hpk : p.1 = k
    · rw [if_pos (by simpa using hpk), alistGet_cons, alistGet_cons]
      have h1 : ¬ k = k' := fun hc => h hc.symm
      have h2 : ¬ p.1 = k' := by rw [hpk]; exact h1
      simp only [if_neg h1, if_neg h2]
      exact ih
    · rw [if_neg (by simpa using hpk), alistGet_cons, alistGet_cons]
      by_cases hp' : p.1 = k'
      · simp [hp']
      · simp only [if_neg hp']
        exact ih

theorem alistGet_append_single {α : Type} (l : List (String × α)) (k k' : String) (v : α) :
    alistGet (l ++ [(k, v)]) k' =
      match alistGet l k' with
      | some w => some w
      | none => if k = k' then some v else none := by
  induction l with
  | nil => simp [alistGet_cons, alistGet]
  | cons p t ih =>
    rw [List.cons_append, alistGet_cons, alistGet_cons]
    by_cases hpk : p.1 = k'
    · simp [hpk]
    · simp [hpk, ih]

theorem alistGet_alistSet_self {α : Type} (l : List (String × α)) (k : String) (v : α) :
    alistGet (alistSet l k v) k = some v := by
  unfold alistSet
  by_cases hany : l.any (fun p => p.1 == k) = true
  · rw [if_pos hany, alistGet_map_set_self, if_pos hany]
  · rw [if_neg hany, alistGet_append_single]
    have : alistGet l k = none := by
      apply alistGet_eq_none_of_not_mem_keys
      intro hk
      apply hany
      rw [List.any_eq_true]
      rcases List.mem_map.mp hk with ⟨p, hp, hpk⟩
      exact ⟨p, hp, by simp [hpk]⟩
    simp [this]

theorem alistGet_alistSet_ne {α : Type} (l : List (String × α)) (k k' : String) (v : α)
    (h : k' ≠ k) : alistGet (alistSet l k v) k' = alistGet l k' := by
  unfold alistSet
  by_cases hany : l.any (fun p => p.1 == k) = true
  · rw [if_pos hany]
    exact alistGet_map_set_ne l k k' v h
  · rw [if_neg hany, alistGet_append_single]
    have : ¬ k = k' := fun hc => h hc.symm
    cases hg : alistGet l k' <;> simp [this]

theorem alistGet_alistRemove_self {α : Type} (l : List (String × α)) (k : String) :
    alistGet (alistRemove l k) k = none := by
  apply alistGet_eq_none_of_not_mem_keys
  intro hk
  rcases List.mem_map.mp hk with ⟨p, hp, hpk⟩
  rcases List.mem_filter.mp hp with ⟨_, hfil⟩
  simp [hpk] at hfil

theorem alistGet_alistRemove_ne {α : Type} (l : List (String × α)) (k k' : String)
    (h : k' ≠ k) : alistGet (alistRemove l k) k' = alistGet l k' := by
  induction l with
  | nil => rfl
  | cons p t ih =>
    unfold alistRemove at *
    rw [List.filter]
    cases hp : (p.1 == k) with
    | true =>
      have hpk : p.1 = k := by simpa using hp
      rw [alistGet_cons]
      have : ¬ p.1 = k' := by rw [hpk]; exact fun hc => h hc.symm
      simp only [hp, Bool.not_true, if_neg this]
      exact ih
    | false =>
      simp only [hp, Bool.not_false]
      rw [alistGet_cons, alistGet_cons]
      by_cases hpk : p.1 = k'
      · simp [hpk]
      · simp [hpk, ih]

theorem mem_alistSet {α : Type} {l : List (String × α)} {k : String} {v : α} {e : String × α}
    (h : e ∈ alistSet l k v) : e ∈ l ∨ e = (k, v) := by
  unfold alistSet at h
  by_cases hany : l.any (fun p => p.1 == k) = true
  · simp only [hany, if_pos] at h
    rcases List.mem_map.mp h with ⟨p, hp, hpe⟩
    by_cases hpk : (p.1 == k) = true
    · right; simp [hpk] at hpe; exact hpe.symm
    · left; simp [hpk] at hpe; rwa [← hpe]
  · simp only [hany, if_neg] at h
    rcases List.mem_append.mp h with hl | hr
    · exact Or.inl hl
    · right; simpa using hr

theorem alistSet_ne_nil {α : Type} (l : List (String × α)) (k : String) (v : α) :
    alistSet l k v ≠ [] := by
  unfold alistSet
  cases l with
  | nil => simp
  | cons p t =>
    by_cases hany : ((p :: t).any fun q => q.1 == k) = true
    · rw [if_pos hany]; simp
    · rw [if_neg hany]; simp

theorem dictUpdate_acc_ne_nil (d e : MetaDict) (h : d ≠ []) : dictUpdate d e ≠ [] := by
  induction e generalizing d with
  | nil => exact h
  | cons p t ih =>
    show dictUpdate (dictSet d p.1 p.2) t ≠ []
    exact ih _ (alistSet_ne_nil d p.1 p.2)

theorem dictUpdate_ne_nil (d e : MetaDict) (he : e ≠ []) : dictUpdate d e ≠ [] := by
  cases e with
  | nil => exact absurd rfl he
  | cons p t =>
    show dictUpdate (dictSet d p.1 p.2) t ≠ []
    exact dictUpdate_acc_ne_nil _ _ (alistSet_ne_nil d p.1 p.2)

/-- `dict.update` gives the updating dict's binding priority (its keys
assumed unique, as for any parsed JSON object). -/
theorem dictGet_dictUpdate (d e : MetaDict) (k : String)
    (hnod : (e.map Prod.fst).Nodup) :
    dictGet (dictUpdate d e) k =
      match dictGet e k with
      | some v => some v
      | none => dictGet d k := by
  induction e generalizing d with
  | nil => simp [dictUpdate, dictGet, alistGet]
  | cons p t ih =>
    rw [List.map_cons, List.nodup_cons] at hnod
    have step : dictUpdate d (p :: t) = dictUpdate (dictSet d p.1 p.2) t := rfl
    rw [step, ih _ hnod.2]
    have hc : dictGet (p :: t) k = if p.1 = k then some p.2 else dictGet t k :=
      alistGet_cons p t k
    rw [hc]
    by_cases hpk : p.1 = k
    · have htk : dictGet t k = none := by
        apply alistGet_eq_none_of_not_mem_keys
        rw [← hpk]; exact hnod.1
      rw [htk, if_pos hpk]
      show (alistGet (alistSet d p.1 p.2) k) = some p.2
      rw [hpk, alistGet_alistSet_self]
    · rw [if_neg hpk]
      cases hg : dictGet t k with
      | some v => rfl
      | none =>
        show (alistGet (alistSet d p.1 p.2) k) = dictGet d k
        exact alistGet_alistSet_ne d p.1 k p.2 (fun hc' => hpk hc'.symm)

/-! # Claim theorems -/

/-! # Claim theorems -/

/-- Claim C1: a resume attempt whose first event is a `thread.started`
with a mismatched thread id is claimed to end in a done status with
`run_mode == "fallback"`, a discarded buffer and a history-bearing
re-invocation.  On the code this flow is unreachable: `handlers._run`
passes `resume_session_id=` to `CodexRunner.run`, whose signature does not
declare that parameter, so CPython raises `TypeError` at the call, the
generic exception handler emits an error payload, and no done status (let
alone one with `run_mode == "fallback"`) is ever produced. -/
theorem c1_resume_mismatch_turn_errors :
    run_call_type_error = true ∧
    "resume_session_id" ∈ handlers_run_call_keywords ∧
    "resume_session_id" ∉ codex_runner_run_keyword_params ∧
    turn_resume_target (turn_prepared_store resume_fixture_store "s1" "" "" "t1") "s1" = "s1" ∧
    (run_turn_python resume_fixture_store [] "r1" "s1" "" "" "next question" none "t1"
        mismatch_spec).out =
      [.statusRunning, .errorMsg run_type_error_message, .statusReady] ∧
    ((run_turn_python resume_fixture_store [] "r1" "s1" "" "" "next question" none "t1"
        mismatch_spec).out.filter is_done_msg) = [] := by
  decide

/-- Claim C2: a resume invocation finishing with a nonzero exit code, no
assistant text and no auth hint is claimed to trigger one fallback
re-invocation.  On the code the first `runner.run` call already raises
`TypeError` (unexpected keyword `resume_session_id`), so the turn ends in
an error payload: no fallback notice, no second invocation, no done
status. -/
theorem c2_silent_resume_failure_no_fallback :
    run_call_type_error = true ∧
    (run_turn_python resume_fixture_store [] "r2" "s1" "" "" "again" none "t2"
        silent_failure_spec).out =
      [.statusRunning, .errorMsg run_type_error_message, .statusReady] ∧
    ((run_turn_python resume_fixture_store [] "r2" "s1" "" "" "again" none "t2"
        silent_failure_spec).out.filter
      (fun m => m = .outputMsg resume_fallback_hint (some "system"))) = [] ∧
    ((run_turn_python resume_fixture_store [] "r2" "s1" "" "" "again" none "t2"
        silent_failure_spec).out.filter is_done_msg) = [] := by
  decide

/-- Claim C8: the model-catalog cache logic does have a ~10-minute TTL,
but the claimed force-refresh override does not exist:
`list_available_models` declares only `command`, while the handler passes
`force_refresh=`, so every catalog call dies with `TypeError` and no
catalog payload is ever delivered. -/
theorem c8_catalog_force_refresh_type_error :
    catalog_call_type_error = true ∧
    "force_refresh" ∈ handlers_list_models_call_keywords ∧
    "force_refresh" ∉ list_available_models_keyword_params ∧
    send_model_catalog_out ⟨["gpt-5-codex"], 0⟩ 700 (some ["gpt-5.1"]) true = [] ∧
    send_model_catalog_out ⟨[], 0⟩ 0 (some ["gpt-5.1"]) false = [] ∧
    list_available_models_model ⟨["gpt-5-codex"], 100⟩ 699 none =
      ⟨["gpt-5-codex"], ⟨["gpt-5-codex"], 100⟩, false⟩ ∧
    (list_available_models_model ⟨["gpt-5-codex"], 100⟩ 700 (some ["gpt-5.1"])).used_fetch
      = true := by
  decide

/-- Claim C3, counterexample: renaming `A` to `B` merges metadata with
`A`'s (the old id's) values overriding `B`'s — `rename_session` iterates
`(new, old)` into `dict.update` — while the claim says `B`'s values
override `A`'s.  The log side behaves as claimed (`B`'s messages then
`A`'s). -/
theorem c3_rename_meta_counterexample :
    dictGet ((alistGet (rename_session rename_fixture_store "A" "B" "t3").1.metas "B").getD [])
        "notebook_path" = some (.s "a.ipynb") ∧
    ¬ (dictGet ((alistGet (rename_session rename_fixture_store "A" "B" "t3").1.metas "B").getD [])
        "notebook_path" = some (.s "b.ipynb")) ∧
    alistGet (rename_session rename_fixture_store "A" "B" "t3").1.logs "B" =
      some [⟨"user", "from-b", "t2", none⟩, ⟨"user", "from-a", "t1", none⟩] := by
  decide

/-- Claim C4, counterexample: with a configured byte budget the store may
keep fewer than the configured maximum message count — here every record
exceeds the one-byte budget, so after three appends under a two-message
maximum `load()` is empty rather than the most recent two messages. -/
theorem c4_byte_budget_counterexample :
    load_messages (append_run tiny_config "s" tiny_items) "s" = [] ∧
    takeLast tiny_config.max_messages_per_session
      (tiny_items.map (run_item_record tiny_config)) ≠ [] := by
  decide

/-- Claim C6: the cancellation contract cannot be exercised in the code as
it stands — `_run` has no suspension point before its first
`self._runner.run(...)` call (its `write_message` calls are not awaited),
and that call raises `TypeError` synchronously (it passes
`resume_session_id=`, which `CodexRunner.run` does not declare), so the
coroutine runs to completion within its first event-loop step: the turn
ends through the generic error path with no done status (in particular
never one carrying `cancelled = true`), its registry entry is popped in
`finally`, and a cancel message — necessarily processed afterwards — is
answered with a `"Run not found"` error. -/
theorem c6_cancel_unreachable :
    run_call_type_error = true ∧
    (run_turn_python cancel_fixture_store [] "r1" "s" "" "" "hello" none "t"
        cancel_spec).out =
      [.statusRunning, .errorMsg run_type_error_message, .statusReady] ∧
    ((run_turn_python cancel_fixture_store [] "r1" "s" "" "" "hello" none "t"
        cancel_spec).out.filter is_done_msg) = [] ∧
    alistGet (run_turn_python cancel_fixture_store [] "r1" "s" "" "" "hello" none "t"
        cancel_spec).active_runs "r1" = none ∧
    handle_cancel
      (run_turn_python cancel_fixture_store [] "r1" "s" "" "" "hello" none "t"
        cancel_spec).active_runs "r1" = ([.errorMsg "Run not found"], none) := by
  decide

/-- Claim C7, counterexample: cancelling a run that has already finished
(its registry entry was popped in `_run`'s `finally`) makes
`_handle_cancel` reply with a `"Run not found"` error payload — the claim
says such a cancel does not produce an error response. -/
theorem c7_cancel_after_finish_errors :
    (run_turn cancel_fixture_store [] "r1" "s" "" "" "hello" none "t"
        ⟨⟨[], .completes 0⟩, ⟨[], .completes 0⟩⟩).active_runs = [] ∧
    handle_cancel
      (run_turn cancel_fixture_store [] "r1" "s" "" "" "hello" none "t"
        ⟨⟨[], .completes 0⟩, ⟨[], .completes 0⟩⟩).active_runs "r1" =
      ([OutMsg.errorMsg "Run not found"], none) := by
  decide

/-- Claim C9, counterexample: a complete `\n`-terminated line of
whitespace fails to decode as JSON, yet it is skipped (the stripped line
is empty) rather than delivered as a synthetic raw-text event. -/
theorem c9_blank_line_dropped :
    pyStrip [' '] = [] ∧
    read_stdout_model (fun _ : Chars => (none : Option Unit)) [[' ', '\n']] = .ok [] := by
  decide

/-- Claim C3 (amended): `rename(A, B)` concatenates the logs with `A`'s
messages appended after `B`'s existing log (re-subjected to the growth
limits), removes `A`'s files, and merges metadata with `A`'s — the OLD
id's — values overriding `B`'s on conflicting fields (the claim said the
opposite); the identity/policy fields (`session_id`, `updated_at`,
`schema_version`, `retention_days`, `max_messages_per_session`) are reset
regardless. -/
theorem c3_rename_amended (s : SessionStore) (A B now : String)
    (metaA metaB : MetaDict) (logA logB : List Record)
    (hA : pyStripS A = A) (hB : pyStripS B = B)
    (hA0 : A ≠ "") (hB0 : B ≠ "") (hAB : A ≠ B)
    (hen : s.cfg.logging_enabled = true)
    (hMA : alistGet s.metas A = some metaA) (hMB : alistGet s.metas B = some metaB)
    (hMAne : metaA ≠ [])
    (hLA : alistGet s.logs A = some logA) (hLB : alistGet s.logs B = some logB)
    (hnodA : (metaA.map Prod.fst).Nodup) (hnodB : (metaB.map Prod.fst).Nodup)
    (hfix : enforce_session_limits s.cfg (logB ++ logA) true = logB ++ logA) :
    alistGet (rename_session s A B now).1.logs B = some (logB ++ logA) ∧
    alistGet (rename_session s A B now).1.logs A = none ∧
    alistGet (rename_session s A B now).1.metas A = none ∧
    ∃ m, alistGet (rename_session s A B now).1.metas B = some m ∧
      ∀ k, k ∉ ["session_id", "updated_at", "schema_version",
                "retention_days", "max_messages_per_session"] →
        dictGet m k =
          match dictGet metaA k with
          | some v => some v
          | none => dictGet metaB k := by
  have hBA : B ≠ A := fun hc => hAB hc.symm
  have hguard : ¬ (A = "" ∨ B = "" ∨ A = B) := by
    push_neg
    exact ⟨hA0, hB0, hAB⟩
  -- the store after the rename, fully reduced
  set merged1 : MetaDict := dictUpdate (dictUpdate [] metaB) metaA with hmerged
  set m2 : MetaDict :=
    dictSet (dictSet (dictSet (dictSet (dictSet
      merged1 "session_id" (.s B))
      "updated_at" (.s now))
      "schema_version" (.n session_file_version))
      "retention_days" (.n s.cfg.retention_days))
      "max_messages_per_session" (.n s.cfg.max_messages_per_session) with hm2
  have hlogs1B : alistGet (alistRemove (alistSet s.logs B (logB ++ logA)) A) B
      = some (logB ++ logA) := by
    rw [alistGet_alistRemove_ne _ _ _ hBA, alistGet_alistSet_self]
  have hmetas2B : alistGet (alistRemove (alistSet s.metas B m2) A) B = some m2 := by
    rw [alistGet_alistRemove_ne _ _ _ hBA, alistGet_alistSet_self]
  have hmerged1ne : merged1 ≠ [] := dictUpdate_ne_nil _ _ hMAne
  have hmerged1 : merged1.isEmpty = false := by
    cases hme : merged1.isEmpty
    · rfl
    · exact absurd (List.isEmpty_iff.mp hme) hmerged1ne
  have hres : rename_session s A B now =
      (⟨s.cfg,
        alistRemove (alistSet s.metas B m2) A,
        alistSet (alistRemove (alistSet s.logs B (logB ++ logA)) A) B (logB ++ logA)⟩,
       B) := by
    unfold rename_session
    rw [hA, hB, if_neg hguard, hen]
    simp only [Bool.not_true, Bool.false_eq_true, if_false, hLA, hLB, hMA, hMB,
      hmerged1, Bool.not_false, if_true, hmetas2B, Option.isSome_some, hlogs1B, hfix]
  rw [hres]
  refine ⟨?_, ?_, ?_, m2, hmetas2B, ?_⟩
  · exact alistGet_alistSet_self _ _ _
  · rw [alistGet_alistSet_ne _ _ _ _ hAB, alistGet_alistRemove_self]
  · rw [alistGet_alistRemove_self]
  · intro k hk
    simp only [List.mem_cons, List.not_mem_nil, or_false] at hk
    push_neg at hk
    obtain ⟨hk1, hk2, hk3, hk4, hk5⟩ := hk
    rw [hm2]
    show alistGet _ k = _
    rw [show dictSet = fun (d : MetaDict) k v => alistSet d k v from rfl]
    rw [alistGet_alistSet_ne _ _ _ _ hk5, alistGet_alistSet_ne _ _ _ _ hk4,
      alistGet_alistSet_ne _ _ _ _ hk3, alistGet_alistSet_ne _ _ _ _ hk2,
      alistGet_alistSet_ne _ _ _ _ hk1]
    have h1 : dictGet merged1 k =
        match dictGet metaA k with
        | some v => some v
        | none => dictGet (dictUpdate [] metaB) k := dictGet_dictUpdate _ _ _ hnodA
    have h2 : dictGet (dictUpdate [] metaB) k =
        match dictGet metaB k with
        | some v => some v
        | none => dictGet ([] : MetaDict) k := dictGet_dictUpdate _ _ _ hnodB
    show dictGet merged1 k = _
    rw [h1, h2]
    cases dictGet metaA k with
    | some v => rfl
    | none =>
      cases dictGet metaB k with
      | some w => rfl
      | none => rfl

/-- Witness for the amended C3 claim at the concrete fixture store. -/
theorem c3_rename_amended_witness :
    alistGet (rename_session rename_fixture_store "A" "B" "t3").1.logs "B" =
      some [⟨"user", "from-b", "t2", none⟩, ⟨"user", "from-a", "t1", none⟩] ∧
    alistGet (rename_session rename_fixture_store "A" "B" "t3").1.logs "A" = none ∧
    alistGet (rename_session rename_fixture_store "A" "B" "t3").1.metas "A" = none := by
  have h := c3_rename_amended rename_fixture_store "A" "B" "t3"
    [("session_id", .s "A"), ("notebook_path", .s "a.ipynb")]
    [("session_id", .s "B"), ("notebook_path", .s "b.ipynb")]
    [⟨"user", "from-a", "t1", none⟩] [⟨"user", "from-b", "t2", none⟩]
    (by decide) (by decide) (by decide) (by decide) (by decide) (by decide)
    (by decide) (by decide) (by decide) (by decide) (by decide)
    (by decide) (by decide) (by decide)
  exact ⟨h.1, h.2.1, h.2.2.1⟩

/-- Claim C7 (amended): after a turn ends — through any outcome — its
registry entry is popped, and a cancel request for that `run_id` cancels
nothing and leaves the registry unchanged, but it is answered with a
`"Run not found"` error payload rather than being a silent no-op. -/
theorem c7_cancel_finished_run_amended (s0 : SessionStore) (runs0 : List (String × String))
    (run_id session_id notebook_path notebook_os_path content : String)
    (ui : Option UiPreview) (now : String) (spec : TurnSpec) :
    alistGet (run_turn s0 runs0 run_id session_id notebook_path notebook_os_path
        content ui now spec).active_runs run_id = none ∧
    handle_cancel (run_turn s0 runs0 run_id session_id notebook_path notebook_os_path
        content ui now spec).active_runs run_id =
      ([OutMsg.errorMsg "Run not found"], none) := by
  have hpop : alistGet (run_turn s0 runs0 run_id session_id notebook_path notebook_os_path
      content ui now spec).active_runs run_id = none := by
    simp only [run_turn, turn_fallback_reinvoke, turn_finish_done, turn_finish_cancelled,
      turn_finish_error]
    repeat' split
    all_goals simp [alistGet_alistRemove_self]
  refine ⟨hpop, ?_⟩
  unfold handle_cancel
  rw [hpop]

theorem stripFirstUi_roles {r : Record} :
    ∀ (n : Nat) (rs : List Record), r ∈ stripFirstUi n rs → ∃ r0 ∈ rs, r.role = r0.role := by
  intro n rs
  induction rs generalizing n with
  | nil => intro h; cases n <;> simp [stripFirstUi] at h
  | cons a t ih =>
    intro h
    cases n with
    | zero => exact ⟨r, h, rfl⟩
    | succ m =>
      unfold stripFirstUi at h
      by_cases ha : hasUiPreviewRec a = true
      · rw [if_pos ha] at h
        rcases List.mem_cons.mp h with hr | hr
        · exact ⟨a, List.mem_cons_self a t, by rw [hr]⟩
        · rcases ih m hr with ⟨r0, hr0, he⟩
          exact ⟨r0, List.mem_cons_of_mem a hr0, he⟩
      · rw [if_neg ha] at h
        rcases List.mem_cons.mp h with hr | hr
        · exact ⟨a, List.mem_cons_self a t, by rw [hr]⟩
        · rcases ih (m + 1) hr with ⟨r0, hr0, he⟩
          exact ⟨r0, List.mem_cons_of_mem a hr0, he⟩

theorem trim_user_ui_previews_roles {r : Record} (rs : List Record) (n : Nat)
    (h : r ∈ trim_user_ui_previews rs n) : ∃ r0 ∈ rs, r.role = r0.role := by
  simp only [trim_user_ui_previews] at h
  split at h
  · exact ⟨r, h, rfl⟩
  · split at h
    · exact ⟨r, h, rfl⟩
    · exact stripFirstUi_roles _ _ h

theorem dropOldestWhileOver_subset {r : Record} (b : Nat) :
    ∀ rs : List Record, r ∈ dropOldestWhileOver b rs → r ∈ rs := by
  intro rs
  induction rs with
  | nil => intro h; simp [dropOldestWhileOver] at h
  | cons a t ih =>
    intro h
    unfold dropOldestWhileOver at h
    split at h
    · exact List.mem_cons_of_mem a (ih h)
    · exact h

theorem takeLast_subset {α : Type} (n : Nat) (xs : List α) : takeLast n xs ⊆ xs :=
  fun _ h => List.drop_subset _ _ h

theorem enforce_session_limits_roles {r : Record} (cfg : StoreConfig) (recs : List Record)
    (skip : Bool) (h : r ∈ enforce_session_limits cfg recs skip) :
    ∃ r0 ∈ recs, r.role = r0.role := by
  simp only [enforce_session_limits, trim_records_to_byte_budget] at h
  repeat' split at h
  all_goals try exact ⟨r, h, rfl⟩
  all_goals
    first
    | (rcases trim_user_ui_previews_roles _ _ h with ⟨r0, hr0, he⟩
       first
       | exact ⟨r0, takeLast_subset _ _ hr0, he⟩
       | exact ⟨r0, hr0, he⟩)
    | (rcases trim_user_ui_previews_roles _ _ (dropOldestWhileOver_subset _ _ h)
          with ⟨r0, hr0, he⟩
       first
       | exact ⟨r0, takeLast_subset _ _ hr0, he⟩
       | exact ⟨r0, hr0, he⟩)

/-- Claim C10: every record persisted by `append_message` has a role in
`{system, user, assistant}`; an unknown role argument is stored as
`"system"`, and appending preserves the role invariant of the whole
store. -/
theorem c10_role_normalization :
    (∀ cfg role content now ui, allowed_role (mk_record cfg role content now ui).role) ∧
    (∀ role : String, role ≠ "system" → role ≠ "user" → role ≠ "assistant" →
      normalize_role role = "system") ∧
    (∀ s sid role content ui now,
      roles_ok s → roles_ok (append_message s sid role content ui now)) := by
  have hnorm : ∀ role, allowed_role (normalize_role role) := by
    intro role
    unfold normalize_role allowed_role
    split
    · assumption
    · left; rfl
  refine ⟨?_, ?_, ?_⟩
  · intro cfg role content now ui
    exact hnorm role
  · intro role h1 h2 h3
    unfold normalize_role
    rw [if_neg]
    rintro (h | h | h) <;> [exact h1 h; exact h2 h; exact h3 h]
  · intro s sid role content ui now hok
    unfold append_message
    split
    · exact hok
    · split
      · exact hok
      · intro e he r hr
        rcases mem_alistSet he with hel | heq
        · exact hok e hel r hr
        · subst heq
          simp only at hr
          rcases enforce_session_limits_roles _ _ _ hr with ⟨r0, hr0, he'⟩
          rcases List.mem_append.mp hr0 with hold | hnew
          · cases hg : alistGet s.logs sid with
            | none => rw [hg] at hold; simp at hold
            | some L =>
              rw [hg] at hold
              simp only [Option.getD_some] at hold
              rcases alistGet_mem hg with ⟨p, hp, hpL⟩
              rw [he']
              exact hok p hp r0 (by rw [hpL]; exact hold)
          · rw [he']
            have : r0 = mk_record s.cfg role content now ui := by simpa using hnew
            rw [this]
            exact hnorm role

/-- Witness for C10: an unknown role `"tool"` is normalized to `"system"`
and appending it to a fresh store keeps every stored role allowed. -/
theorem c10_role_normalization_witness :
    normalize_role "tool" = "system" ∧
    roles_ok (append_message (emptyStore defaultConfig) "s" "tool" "hello" none "t") := by
  refine ⟨c10_role_normalization.2.1 "tool" (by decide) (by decide) (by decide), ?_⟩
  apply c10_role_normalization.2.2
  intro e he r hr
  simp [emptyStore] at he

theorem splitCompleteLines_no_newline (buf : Chars) (h : ¬ '\n' ∈ buf) :
    splitCompleteLines buf = ([], buf) := by
  induction buf with
  | nil => rfl
  | cons c rest ih =>
    unfold splitCompleteLines
    have hc : ¬ c = '\n' := fun hc => h (hc ▸ List.mem_cons_self c rest)
    rw [if_neg hc, ih (fun hm => h (List.mem_cons_of_mem c hm))]

theorem splitCompleteLines_line (l : Chars) (h : ¬ '\n' ∈ l) :
    splitCompleteLines (l ++ ['\n']) = ([l], []) := by
  induction l with
  | nil => rfl
  | cons c rest ih =>
    have hc : ¬ c = '\n' := fun hc => h (hc ▸ List.mem_cons_self c rest)
    rw [List.cons_append]
    unfold splitCompleteLines
    rw [if_neg hc, ih (fun hm => h (List.mem_cons_of_mem c hm))]

theorem read_stdout_overflow {α : Type} (decode : Chars → Option α) :
    ∀ (chunks : List Chars) (buf : Chars), (∀ c ∈ chunks, ¬ '\n' ∈ c) → ¬ '\n' ∈ buf →
      buf.length ≤ max_event_line_bytes →
      max_event_line_bytes < buf.length + (chunks.map List.length).sum →
      read_stdout decode buf chunks = .error () := by
  intro chunks
  induction chunks with
  | nil =>
    intro buf _ _ hble hsum
    simp only [List.map_nil, List.sum_nil, Nat.add_zero] at hsum
    omega
  | cons c rest ih =>
    intro buf hnl hbnl hble hsum
    have hb1 : ¬ '\n' ∈ buf ++ c := by
      rw [List.mem_append]
      rintro (hm | hm)
      · exact hbnl hm
      · exact hnl c (List.mem_cons_self c rest) hm
    by_cases hover : max_event_line_bytes < (buf ++ c).length
    · have hfeed : runner_feed decode buf c = .error () := by
        unfold runner_feed
        rw [if_pos ⟨hover, hb1⟩]
      simp only [read_stdout, hfeed]
    · have hle : (buf ++ c).length ≤ max_event_line_bytes := by omega
      have hfeed : runner_feed decode buf c = .ok (buf ++ c, []) := by
        unfold runner_feed
        rw [if_neg (fun hp => hover hp.1)]
        rw [splitCompleteLines_no_newline _ hb1]
        rfl
      have hrec : read_stdout decode (buf ++ c) rest = .error () := by
        apply ih (buf ++ c) (fun d hd => hnl d (List.mem_cons_of_mem c hd)) hb1 hle
        rw [List.length_append]
        simp only [List.map_cons, List.sum_cons] at hsum
        omega
      simp only [read_stdout, hfeed, hrec]

theorem read_stdout_lines {α : Type} (decode : Chars → Option α) :
    ∀ lines : List Chars, (∀ l ∈ lines, ¬ '\n' ∈ l) →
      read_stdout decode [] (lines.map (fun l => l ++ ['\n'])) =
        .ok (lines.filterMap (line_event decode)) := by
  intro lines
  induction lines with
  | nil => intro _; rfl
  | cons l rest ih =>
    intro h
    have hl : ¬ '\n' ∈ l := h l (List.mem_cons_self l rest)
    have hfeed : runner_feed decode [] (l ++ ['\n']) =
        .ok ([], [l].filterMap (line_event decode)) := by
      unfold runner_feed
      rw [if_neg (fun hp => hp.2 (by rw [List.nil_append, List.mem_append]; right; simp))]
      rw [List.nil_append, splitCompleteLines_line l hl]
    have hih := ih (fun d hd => h d (List.mem_cons_of_mem l hd))
    simp only [List.map_cons, read_stdout, hfeed, hih]
    cases hle : line_event decode l <;> simp [List.filterMap_cons, hle]

/-- Claim C9 (amended): an unterminated stdout line accumulating past the
1 MiB hard bound makes the pump fail fast; a stream of complete lines is
delivered as one event per line, where a non-blank line that fails to
decode becomes the synthetic raw-text event — but a blank (whitespace
only) line, which also fails to decode as JSON, is skipped rather than
delivered. -/
theorem c9_framing_amended {α : Type} (decode : Chars → Option α) :
    (∀ chunks : List Chars, (∀ c ∈ chunks, ¬ '\n' ∈ c) →
      max_event_line_bytes < (chunks.map List.length).sum →
      read_stdout_model decode chunks = .error ()) ∧
    (∀ lines : List Chars, (∀ l ∈ lines, ¬ '\n' ∈ l) →
      read_stdout_model decode (lines.map (fun l => l ++ ['\n'])) =
        .ok (lines.filterMap (line_event decode))) ∧
    (∀ l : Chars, pyStrip l ≠ [] → decode (pyStrip l) = none →
      line_event decode l = some (.raw (pyStrip l))) := by
  refine ⟨?_, ?_, ?_⟩
  · intro chunks hnl hsum
    exact read_stdout_overflow decode chunks [] hnl (by simp) (by simp) (by simpa using hsum)
  · intro lines hnl
    exact read_stdout_lines decode lines hnl
  · intro l h1 h2
    have hne : (pyStrip l).isEmpty = false := by
      cases he : (pyStrip l).isEmpty
      · rfl
      · exact absurd (List.isEmpty_iff.mp he) h1
    simp only [line_event]
    rw [hne]
    simp [h2]

/-- Witness for the amended C9 claim: a 1 MiB + 1 newline-free stream
fails fast, and a complete undecodable non-blank line is delivered as a
raw event. -/
theorem c9_framing_amended_witness :
    read_stdout_model (fun _ : Chars => (none : Option Unit)) [List.replicate 1048577 'x'] =
      .error () ∧
    read_stdout_model (fun _ : Chars => (none : Option Unit)) [['a', '\n']] =
      .ok [.raw ['a']] := by
  constructor
  · apply (c9_framing_amended (fun _ : Chars => (none : Option Unit))).1
    · intro c hc
      rw [List.mem_singleton] at hc
      subst hc
      intro hm
      exact absurd (List.eq_of_mem_replicate hm) (by decide)
    · rw [List.map_singleton, List.length_replicate, List.sum_singleton]
      decide
  · have h := (c9_framing_amended (fun _ : Chars => (none : Option Unit))).2.1 [['a']]
      (by intro l hl; rw [List.mem_singleton] at hl; subst hl; simp)
    simpa using h

theorem takeLast_eq_reverse {α : Type} (n : Nat) (xs : List α) :
    takeLast n xs = (xs.reverse.take n).reverse := by
  unfold takeLast
  rw [List.take_reverse, List.reverse_reverse]

theorem takeLast_of_length_le {α : Type} {n : Nat} {xs : List α} (h : xs.length ≤ n) :
    takeLast n xs = xs := by
  unfold takeLast
  rw [Nat.sub_eq_zero_of_le h, List.drop_zero]

theorem takeLast_takeLast_append {α : Type} (n : Nat) (xs ys : List α) :
    takeLast n (takeLast n xs ++ ys) = takeLast n (xs ++ ys) := by
  simp only [takeLast_eq_reverse]
  rw [List.reverse_append, List.reverse_append, List.reverse_reverse]
  rw [List.take_append_eq_append_take, List.take_append_eq_append_take]
  rw [List.take_take]
  rw [inf_eq_left.mpr (Nat.sub_le _ _)]

theorem trim_user_ui_previews_id (rs : List Record) (n : Nat)
    (h : ∀ r ∈ rs, hasUiPreviewRec r = false) :
    trim_user_ui_previews rs n = rs := by
  simp only [trim_user_ui_previews]
  split
  · rfl
  · have hfil : List.filter hasUiPreviewRec rs = [] :=
      List.filter_eq_nil_iff.mpr (fun a ha => by rw [h a ha]; simp)
    rw [hfil]
    simp

/-- With the byte budget disabled and no UI previews, the growth limits
keep exactly the most recent `max_messages_per_session` records. -/
theorem enforce_plain (cfg : StoreConfig) (recs : List Record)
    (hms : 0 < cfg.max_messages_per_session) (hby : cfg.max_session_bytes = 0)
    (hui : ∀ r ∈ recs, hasUiPreviewRec r = false) :
    enforce_session_limits cfg recs false = takeLast cfg.max_messages_per_session recs := by
  simp only [enforce_session_limits]
  split
  · next hemp =>
    rw [List.isEmpty_iff.mp hemp]
    simp [takeLast]
  · rw [trim_user_ui_previews_id _ _ (fun r hr => hui r (takeLast_subset _ _ hr))]
    simp only [hby, gt_iff_lt, lt_self_iff_false, if_false, decide_False, Bool.false_and,
      Bool.false_eq_true, or_false]
    split
    · rfl
    · next hlen =>
      push_neg at hlen
      have hle : recs.length ≤ cfg.max_messages_per_session := by
        unfold takeLast at hlen
        rw [List.length_drop] at hlen
        omega
      rw [takeLast_of_length_le hle]

theorem mk_record_ui_none (cfg : StoreConfig) (role content now : String) :
    (mk_record cfg role content now none).ui = none := rfl

theorem hasUiPreviewRec_of_ui_none {r : Record} (h : r.ui = none) :
    hasUiPreviewRec r = false := by
  unfold hasUiPreviewRec
  rw [h]
  simp

/-- The log-shape invariant through `append_run`'s fold. -/
theorem append_run_fold (cfg : StoreConfig) (sid : String)
    (hen : cfg.logging_enabled = true) (hsid : sid ≠ "")
    (hms : 0 < cfg.max_messages_per_session) (hby : cfg.max_session_bytes = 0) :
    ∀ (items : List (String × String × String)) (s : SessionStore) (L : List Record),
      s.cfg = cfg → (alistGet s.logs sid).getD [] = L →
      L.length ≤ cfg.max_messages_per_session → (∀ r ∈ L, r.ui = none) →
      (alistGet
          (items.foldl (fun s it => append_message s sid it.1 it.2.1 none it.2.2) s).logs
          sid).getD []
        = takeLast cfg.max_messages_per_session (L ++ items.map (run_item_record cfg)) ∧
      (items.foldl (fun s it => append_message s sid it.1 it.2.1 none it.2.2) s).cfg = cfg := by
  intro items
  induction items with
  | nil =>
    intro s L hcfg hL hlen hui
    rw [List.foldl_nil]
    refine ⟨?_, hcfg⟩
    rw [hL, List.map_nil, List.append_nil, takeLast_of_length_le hlen]
  | cons it rest ih =>
    intro s L hcfg hL hlen hui
    rw [List.foldl_cons]
    have hr : mk_record cfg it.1 it.2.1 it.2.2 none = run_item_record cfg it := rfl
    have happ :
        (append_message s sid it.1 it.2.1 none it.2.2).logs =
          alistSet s.logs sid
            (takeLast cfg.max_messages_per_session (L ++ [run_item_record cfg it])) ∧
        (append_message s sid it.1 it.2.1 none it.2.2).cfg = cfg := by
      unfold append_message
      rw [hcfg, hen]
      simp only [Bool.not_true, Bool.false_eq_true, if_false, if_neg hsid]
      constructor
      · rw [hL, hr]
        rw [enforce_plain cfg _ hms hby ?hui]
        case hui =>
          intro r hrm
          rcases List.mem_append.mp hrm with hm | hm
          · exact hasUiPreviewRec_of_ui_none (hui r hm)
          · rw [List.mem_singleton] at hm
            rw [hm]
            exact hasUiPreviewRec_of_ui_none rfl
      · first
        | rfl
        | trivial
    have hg' :
        (alistGet (append_message s sid it.1 it.2.1 none it.2.2).logs sid).getD [] =
          takeLast cfg.max_messages_per_session (L ++ [run_item_record cfg it]) := by
      rw [happ.1, alistGet_alistSet_self]
      rfl
    have hlen' :
        (takeLast cfg.max_messages_per_session (L ++ [run_item_record cfg it])).length ≤
          cfg.max_messages_per_session := by
      unfold takeLast
      rw [List.length_drop]
      omega
    have hui' : ∀ r ∈ takeLast cfg.max_messages_per_session (L ++ [run_item_record cfg it]),
        r.ui = none := by
      intro r hrm
      rcases List.mem_append.mp (takeLast_subset _ _ hrm) with hm | hm
      · exact hui r hm
      · rw [List.mem_singleton] at hm
        rw [hm]
        rfl
    have hmain := ih (append_message s sid it.1 it.2.1 none it.2.2) _ happ.2 hg' hlen' hui'
    refine ⟨?_, hmain.2⟩
    rw [hmain.1, takeLast_takeLast_append, List.append_assoc, List.singleton_append,
      List.map_cons]

/-- Claim C4 (amended): with the byte budget disabled (and no UI-preview
payloads in play), a sequence of `N > max` appends leaves exactly the most
recent `max_messages_per_session` records, in their original relative
order, and `load()` returns exactly those; a positive byte budget may
evict further records from the oldest end (see the counterexample). -/
theorem c4_eviction_amended (cfg : StoreConfig) (sid : String)
    (items : List (String × String × String))
    (hen : cfg.logging_enabled = true) (hsid : sid ≠ "")
    (hms : 0 < cfg.max_messages_per_session) (hby : cfg.max_session_bytes = 0)
    (_hcount : cfg.max_messages_per_session < items.length) :
    load_messages (append_run cfg sid items) sid =
      takeLast cfg.max_messages_per_session (items.map (run_item_record cfg)) := by
  have h := append_run_fold cfg sid hen hsid hms hby items (emptyStore cfg) []
    rfl rfl (by simp) (by simp)
  unfold load_messages
  rw [show (append_run cfg sid items) =
      (items.foldl (fun s it => append_message s sid it.1 it.2.1 none it.2.2)
        (emptyStore cfg)) from rfl]
  rw [h.2, hen]
  simp only [Bool.not_true, Bool.false_eq_true, if_false, if_neg hsid]
  rw [h.1, List.nil_append]

/-- Witness for the amended C4 claim: three appends under a two-message
maximum keep the most recent two messages. -/
theorem c4_eviction_amended_witness :
    load_messages (append_run ⟨true, 30, 100, 2, 0⟩ "s" tiny_items) "s" =
      takeLast 2 (tiny_items.map (run_item_record ⟨true, 30, 100, 2, 0⟩)) ∧
    (load_messages (append_run ⟨true, 30, 100, 2, 0⟩ "s" tiny_items) "s").map
      Record.content = ["b", "c"] := by
  have h := c4_eviction_amended ⟨true, 30, 100, 2, 0⟩ "s" tiny_items
    rfl (by decide) (by decide) rfl (by decide)
  exact ⟨h, by rw [h]; decide⟩

theorem takeWhile_append_stop {α : Type} (p : α → Bool) :
    ∀ (xs : List α) (y : α) (ys : List α), (∀ x ∈ xs, p x = true) → p y = false →
      (xs ++ y :: ys).takeWhile p = xs ∧ (xs ++ y :: ys).dropWhile p = y :: ys := by
  intro xs
  induction xs with
  | nil =>
    intro y ys _ hy
    simp [List.takeWhile_cons, List.dropWhile_cons, hy]
  | cons a t ih =>
    intro y ys hall hy
    have ha : p a = true := hall a (List.mem_cons_self a t)
    have ht := ih y ys (fun x hx => hall x (List.mem_cons_of_mem a hx)) hy
    simp [List.takeWhile_cons, List.dropWhile_cons, ha, ht.1, ht.2]

theorem apiKeyMatchAt_lead_stuck (x : Chars) :
    apiKeyMatchAt none
        ('a' :: 'p' :: 'i' :: '_' :: 'k' :: 'e' :: 'y' :: ':' :: ' ' :: '"' :: x) =
      (if (x.takeWhile bodyCharOk).isEmpty then none else
       some ⟨"api_key: \"".data ++ x.takeWhile bodyCharOk,
             "api_key: \"[REDACTED]\"".data, x.dropWhile bodyCharOk⟩) := rfl

theorem apiKeyMatchAt_quote (prev : Option Char) : apiKeyMatchAt prev ['"'] = none := by
  simp only [apiKeyMatchAt]
  split
  · rfl
  · rfl

theorem scanSubFuel_quote (prev : Option Char) (fuel : Nat) :
    scanSubFuel apiKeyMatchAt (fuel + 1 + 1) prev ['"'] = ['"'] := by
  simp only [scanSubFuel, apiKeyMatchAt_quote]
  rfl

theorem scanSubFuel_step {matchAt : Option Char → Chars → Option SubMatch}
    {prev : Option Char} {cs : Chars} {sm : SubMatch} (fuel : Nat)
    (h : matchAt prev cs = some sm) :
    scanSubFuel matchAt (fuel + 1) prev cs =
      sm.repl ++ scanSubFuel matchAt fuel (List.getLast? sm.matched) sm.rest := by
  simp only [scanSubFuel, h]

theorem apiKeyMatchAt_lead (secret : Chars) (hne : secret ≠ [])
    (hok : ∀ c ∈ secret, bodyCharOk c = true) :
    apiKeyMatchAt none (("api_key: \"".data ++ secret) ++ ['"']) =
      some ⟨"api_key: \"".data ++ secret, "api_key: \"[REDACTED]\"".data, ['"']⟩ := by
  have ht := takeWhile_append_stop bodyCharOk secret '"' [] hok rfl
  have hemp : (secret ++ ['"']).takeWhile bodyCharOk = secret := ht.1
  have hdrop : (secret ++ ['"']).dropWhile bodyCharOk = ['"'] := ht.2
  have hie : secret.isEmpty = false := by
    cases secret with
    | nil => exact absurd rfl hne
    | cons a t => rfl
  show apiKeyMatchAt none
      ('a' :: 'p' :: 'i' :: '_' :: 'k' :: 'e' :: 'y' :: ':' :: ' ' :: '"' ::
        (secret ++ ['"'])) = _
  rw [apiKeyMatchAt_lead_stuck (secret ++ ['"'])]
  rw [hemp, hdrop, hie]
  rfl

theorem scanSub_apiKey_lead (secret : Chars) (hne : secret ≠ [])
    (hok : ∀ c ∈ secret, bodyCharOk c = true) :
    scanSub apiKeyMatchAt (("api_key: \"".data ++ secret) ++ ['"']) =
      redacted_api_key_line.data := by
  have hl : ((("api_key: \"".data ++ secret) ++ ['"']).length) =
      (secret.length + 9) + 1 + 1 := by
    rw [List.length_append, List.length_append]
    show 10 + secret.length + 1 = secret.length + 9 + 1 + 1
    omega
  unfold scanSub
  rw [scanSubFuel_step _ (apiKeyMatchAt_lead secret hne hok)]
  rw [hl, scanSubFuel_quote]
  rfl

theorem sanitize_sensitive_values_lead (secret : Chars) (hne : secret ≠ [])
    (hok : ∀ c ∈ secret, bodyCharOk c = true) :
    sanitize_sensitive_values (("api_key: \"".data ++ secret) ++ ['"']) =
      redacted_api_key_line.data := by
  unfold sanitize_sensitive_values
  rw [scanSub_apiKey_lead secret hne hok]
  decide

set_option maxRecDepth 8192 in
theorem enforce_single_user (ts : String)
    (hb : totalByteLen [⟨"user", redacted_api_key_line, ts, none⟩] ≤ 2000000) :
    enforce_session_limits defaultConfig
        [⟨"user", redacted_api_key_line, ts, none⟩] false =
      [⟨"user", redacted_api_key_line, ts, none⟩] := by
  simp only [enforce_session_limits]
  split
  · rfl
  · split
    · have h3 : trim_records_to_byte_budget
          (trim_user_ui_previews
            (if defaultConfig.max_messages_per_session > 0 then
              takeLast defaultConfig.max_messages_per_session
                [(⟨"user", redacted_api_key_line, ts, none⟩ : Record)]
            else [(⟨"user", redacted_api_key_line, ts, none⟩ : Record)])
            default_ui_preview_max_items_per_session)
          defaultConfig.max_session_bytes =
          [(⟨"user", redacted_api_key_line, ts, none⟩ : Record)] := by
        show dropOldestWhileOver 2000000
          [(⟨"user", redacted_api_key_line, ts, none⟩ : Record)] = _
        unfold dropOldestWhileOver
        rw [if_neg (show ¬ totalByteLen
          [(⟨"user", redacted_api_key_line, ts, none⟩ : Record)] > 2000000 by omega)]
      rw [h3]
      simp only [ite_self]
    · next h => exact absurd (by decide) h

theorem append_single (cfg : StoreConfig) (sid role content ts : String)
    (hen : cfg.logging_enabled = true) (hsid : ¬ sid = "") :
    append_message (emptyStore cfg) sid role content none ts =
      ⟨cfg, [], [(sid, enforce_session_limits cfg [mk_record cfg role content ts none] false)]⟩ := by
  simp only [append_message, emptyStore, hen, Bool.not_true, Bool.false_eq_true, if_false]
  rw [if_neg hsid]
  rfl

set_option maxRecDepth 8192 in
/-- Claim C5: appending a message whose content carries an `api_key`-style
secret (`api_key: "<secret>"` for any non-empty secret drawn from the
pattern's value characters, and not itself a fragment of the redaction
text) persists the redaction-marker line in the secret's place: `load`
returns exactly the redacted record, and no loaded content contains the
literal secret substring. -/
theorem c5_secret_redaction (secret : Chars) (ts : String)
    (hne : secret ≠ [])
    (hok : ∀ c ∈ secret, bodyCharOk c = true)
    (hts : jsonStrLen ts.data ≤ 1000)
    (hfree : containsSeq redacted_api_key_line.data secret = false) :
    load_messages
        (append_message (emptyStore defaultConfig) "s" "user"
          ⟨("api_key: \"".data ++ secret) ++ ['"']⟩ none ts) "s" =
      [⟨"user", redacted_api_key_line, ts, none⟩] ∧
    ∀ r ∈ load_messages
        (append_message (emptyStore defaultConfig) "s" "user"
          ⟨("api_key: \"".data ++ secret) ++ ['"']⟩ none ts) "s",
      containsSeq r.content.data secret = false := by
  have hrec : mk_record defaultConfig "user"
      ⟨("api_key: \"".data ++ secret) ++ ['"']⟩ ts none =
      ⟨"user", redacted_api_key_line, ts, none⟩ := by
    unfold mk_record sanitize_messageS sanitize_message
    rw [show (String.mk (("api_key: \"".data ++ secret) ++ ['"'])).data =
        ("api_key: \"".data ++ secret) ++ ['"'] from rfl]
    rw [sanitize_sensitive_values_lead secret hne hok]
    rfl
  have hb : totalByteLen [(⟨"user", redacted_api_key_line, ts, none⟩ : Record)] ≤ 2000000 := by
    have hred : jsonStrLen redacted_api_key_line.data = 27 := by decide
    have h1 : jsonStrLen ("role".data) = 6 := by decide
    have h2 : jsonStrLen ("user".data) = 6 := by decide
    have h3 : jsonStrLen ("content".data) = 9 := by decide
    have h4 : jsonStrLen ("timestamp".data) = 11 := by decide
    unfold totalByteLen recordLineLen json_dumps_len
    simp only [List.map_cons, List.map_nil, List.sum_cons, List.sum_nil, List.append_nil,
      List.length_append, List.length_cons, List.length_nil, hred, h1, h2, h3, h4]
    omega
  have hstore : append_message (emptyStore defaultConfig) "s" "user"
      ⟨("api_key: \"".data ++ secret) ++ ['"']⟩ none ts =
      ⟨defaultConfig, [], [("s", [⟨"user", redacted_api_key_line, ts, none⟩])]⟩ :=
    (append_single defaultConfig "s" "user"
        ⟨("api_key: \"".data ++ secret) ++ ['"']⟩ ts rfl (by decide)).trans
      (by rw [hrec, enforce_single_user ts hb])
  have hmain : load_messages
      (append_message (emptyStore defaultConfig) "s" "user"
        ⟨("api_key: \"".data ++ secret) ++ ['"']⟩ none ts) "s" =
      [⟨"user", redacted_api_key_line, ts, none⟩] := by
    rw [hstore]
    rfl
  refine ⟨hmain, ?_⟩
  intro r hr
  rw [hmain] at hr
  rw [List.mem_singleton] at hr
  rw [hr]
  exact hfree

/-- Witness for C5: the secret `abc123` is redacted before persisting. -/
theorem c5_secret_redaction_witness :
    ("abc123".data ≠ [] ∧ (∀ c ∈ "abc123".data, bodyCharOk c = true) ∧
     jsonStrLen ("t0" : String).data ≤ 1000 ∧
     containsSeq redacted_api_key_line.data "abc123".data = false) ∧
    (load_messages
        (append_message (emptyStore defaultConfig) "s" "user"
          ⟨("api_key: \"".data ++ "abc123".data) ++ ['"']⟩ none "t0") "s" =
      [⟨"user", redacted_api_key_line, "t0", none⟩] ∧
     ∀ r ∈ load_messages
        (append_message (emptyStore defaultConfig) "s" "user"
          ⟨("api_key: \"".data ++ "abc123".data) ++ ['"']⟩ none "t0") "s",
       containsSeq r.content.data "abc123".data = false) :=
  ⟨⟨by decide, by decide, by decide, by decide⟩,
   c5_secret_redaction ("abc123".data) "t0" (by decide) (by decide) (by decide) (by decide)⟩

end Codex
